import Mathlib

/-!
# csloader: bulk upload driver for a content server

A shallow embedding of `main.go` (package `main`): the connection and its
authentication call, the multipart request builder, document creation, and
the driver that launches `count` uploads behind a guard channel of capacity
`concurrency`.

Library calls whose result depends on the outside world (the file system, the
HTTP transport, the JSON decoder, the iteration order of a Go map, the random
multipart boundary) are read from a `World` record.  Go `int` values are
modelled as `Int`; the loop index never exceeds `count`, so no arithmetic of
the program can overflow.  The counter of the `sync.WaitGroup` is an unbounded
integer.

The driver is a step function over explicit states: the scheduler picks the
main goroutine, one of the live upload goroutines, or (on an unbuffered guard)
the rendezvous of the send of `main` with the receive of a goroutine.  A panic
in any goroutine ends the process.
-/

namespace CSLoader

/-! ## Errors, responses, requests -/

/-- Go error values, tagged by the package that created them. -/
inductive GoError
  | errorString (text : String) -- errors.New(text)
  | os (text : String) -- os.Open, file reads
  | http (text : String) -- net/http transport errors
  | json (text : String) -- encoding/json decode errors
  | multipart (text : String) -- mime/multipart write errors
  deriving DecidableEq, Repr

/-- The text of an error, as `err.Error()` returns it. -/
def GoError.Error : GoError → String
  | .errorString t => t
  | .os t => t
  | .http t => t
  | .json t => t
  | .multipart t => t

/-- An `http.Response`, reduced to the fields the program reads. -/
structure Response where
  StatusCode : Int
  Status : String
  Body : String
  deriving DecidableEq, Repr

/-- One part written to a `multipart.Writer`. -/
inductive Part
  | file (fieldname filename : String) (content : List Nat) -- CreateFormFile, then io.Copy
  | field (fieldname value : String) -- WriteField
  deriving DecidableEq, Repr

/-- A `multipart.Writer` over a `bytes.Buffer`: the boundary, the parts written
so far (in order), and whether the closing boundary was written. -/
structure Writer where
  boundary : String
  parts : List Part
  closed : Bool
  deriving DecidableEq, Repr

/-- An `http.Request`: method, URL, header map and the multipart body. -/
structure Request where
  method : String
  url : String
  Header : List (String × String)
  body : Writer
  deriving DecidableEq, Repr

/-- A call that reaches the network. -/
inductive NetCall
  | postForm (url : String) (vals : List (String × String)) -- http.PostForm
  | clientDo (req : Request) -- (*http.Client).Do
  deriving DecidableEq, Repr

/-- Everything outside the program that its library calls consult. -/
structure World where
  /-- the random boundary `multipart.NewWriter` picks -/
  boundary : String
  /-- `os.Open`: the error text, or `none` when the file opens -/
  osOpen : String → Option String
  /-- `io.Copy` from the opened file: its bytes, or a read error -/
  readAll : String → Except String (List Nat)
  /-- selects the order in which `range` walks a map -/
  rangeSeed : Nat
  /-- `http.NewRequest(method, url, _)`: the error text, if any -/
  newRequestErr : String → String → Option String
  /-- `client.Do(req)`: the response pointer (`none` is nil) and the error -/
  clientDo : Request → Option Response × Option String
  /-- `http.PostForm(url, vals)` -/
  postForm : String → List (String × String) → Except String Response
  /-- `json.NewDecoder(body).Decode` into a `map[string]string` -/
  jsonDecode : String → Except String (List (String × String))

/-! ## Library functions with a fixed meaning -/

/-- Decimal digits of a natural number, most significant first. -/
def decimal (n : Nat) : List Char := Nat.toDigits 10 n

/-- Left-pad a digit string with zeros up to `width` characters. -/
def zeroPad (width : Nat) (ds : List Char) : List Char :=
  List.replicate (width - ds.length) '0' ++ ds

/-- Go `strconv.Itoa`. -/
def Itoa (n : Int) : String :=
  if n < 0 then String.mk ('-' :: decimal n.natAbs) else String.mk (decimal n.toNat)

/-- Go `fmt.Sprintf("%05d", n)`: width 5 including the sign, zero padded. -/
def sprintf05d (n : Int) : String :=
  if n < 0 then String.mk ('-' :: zeroPad 4 (decimal n.natAbs))
  else String.mk (zeroPad 5 (decimal n.toNat))

/-- Bytes allowed in a header field name (RFC 7230 token characters). -/
def validHeaderFieldByte (c : Char) : Bool :=
  c.isAlphanum ||
    [33, 35, 36, 37, 38, 39, 42, 43, 45, 46, 94, 95, 96, 124, 126].contains c.toNat

/-- The capitalisation loop of `textproto.CanonicalMIMEHeaderKey`. -/
def canonicalize : Bool → List Char → List Char
  | _, [] => []
  | upper, c :: cs =>
    let c1 := if upper then c.toUpper else c.toLower
    c1 :: canonicalize (c1 == '-') cs

/-- Go `textproto.CanonicalMIMEHeaderKey`: a key that is not a token is left as it is. -/
def CanonicalMIMEHeaderKey (s : String) : String :=
  if s.data.all validHeaderFieldByte then String.mk (canonicalize true s.data) else s

/-- Store `v` under key `k` in a map with one value per key, replacing an older value. -/
def mapSet (m : List (String × String)) (k v : String) : List (String × String) :=
  if m.any (fun p => p.1 == k) then m.map (fun p => if p.1 == k then (k, v) else p)
  else m ++ [(k, v)]

/-- Go `Header.Set`. -/
def Header.Set (h : List (String × String)) (key value : String) : List (String × String) :=
  mapSet h (CanonicalMIMEHeaderKey key) value

/-- Go `Header.Get`: the value stored under the canonical key, or the empty string. -/
def Header.Get (h : List (String × String)) (key : String) : String :=
  (h.lookup (CanonicalMIMEHeaderKey key)).getD ""

/-- Go `url.Values.Set`. -/
def Values.Set (v : List (String × String)) (key value : String) : List (String × String) :=
  mapSet v key value

/-- Go `multipart.NewWriter` on an empty buffer. -/
def NewWriter (w : World) : Writer :=
  { boundary := w.boundary, parts := [], closed := false }

/-- Go `Writer.CreateFormFile` followed by copying `content` into the part.  Writes
into a `bytes.Buffer` never return an error. -/
def Writer.CreateFormFile (bw : Writer) (fieldname filename : String) :
    Except GoError Writer :=
  .ok { bw with parts := bw.parts ++ [Part.file fieldname filename []] }

/-- The bytes `io.Copy` appends to the file part opened last. -/
def Writer.copyInto (bw : Writer) (content : List Nat) : Writer :=
  match bw.parts.reverse with
  | Part.file f n c :: rest => { bw with parts := (Part.file f n (c ++ content) :: rest).reverse }
  | _ => bw

/-- Go `Writer.WriteField`. -/
def Writer.WriteField (bw : Writer) (fieldname value : String) : Except GoError Writer :=
  .ok { bw with parts := bw.parts ++ [Part.field fieldname value] }

/-- Go `Writer.Close`. -/
def Writer.Close (bw : Writer) : Writer := { bw with closed := true }

/-- Go `Writer.FormDataContentType` (a random boundary needs no quoting). -/
def Writer.FormDataContentType (bw : Writer) : String :=
  "multipart/form-data; boundary=" ++ bw.boundary

/-- The order in which `for k, v := range args` visits the entries of a map. -/
def rangeOrder (seed : Nat) : List (String × String) → List (String × String)
  | [] => []
  | kv :: rest =>
    (rangeOrder (seed / (rest.length + 1)) rest).insertIdx (seed % (rest.length + 1)) kv

/-- Go `http.NewRequest`. -/
def NewRequest (w : World) (method url : String) (body : Writer) : Except GoError Request :=
  match w.newRequestErr method url with
  | some e => .error (GoError.http e)
  | none => .ok { method := method, url := url, Header := [], body := body }

/-! ## The program -/

/-- Go struct `csConnection`. -/
structure csConnection where
  url : String
  username : String
  password : String
  ticket : String
  deriving DecidableEq, Repr

def apiBase : String := "/api/v1/"

def apiBaseNodes : String := apiBase ++ "nodes/"

/-- Go struct `flagVar`; the field `prefix` is spelled `pfx`. -/
structure flagVar where
  parentID : Int
  file : String
  pfx : String
  count : Int
  url : String
  username : String
  password : String
  concurrent : Int
  deriving DecidableEq, Repr

/-- Go `newCSConnection`. -/
def newCSConnection (url user password : String) : csConnection :=
  { url := url, username := user, password := password, ticket := "" }

/-- Go `attachFile`: the writer after the call, the content type and the error. -/
def attachFile (w : World) (bodyWriter : Writer) (filename : String) :
    Writer × String × Option GoError :=
  match bodyWriter.CreateFormFile "file" filename with
  | .error err => (bodyWriter, "", some err)
  | .ok bodyWriter =>
    match w.osOpen filename with
    | some err => (bodyWriter, "", some (GoError.os err))
    | none =>
      match w.readAll filename with
      | .error err => (bodyWriter, "", some (GoError.os err))
      | .ok content =>
        let bodyWriter := bodyWriter.copyInto content
        (bodyWriter, bodyWriter.FormDataContentType, none)

/-- The loop `for k, v := range args` of `newDocument`: stops at the first
`WriteField` error. -/
def writeFields : Writer → List (String × String) → Except GoError Writer
  | bw, [] => .ok bw
  | bw, (k, v) :: rest =>
    match bw.WriteField k v with
    | .error err => .error err
    | .ok bw => writeFields bw rest

/-- How a call ends: it returns, or the goroutine panics. -/
inductive Outcome
  | returned (id : Int) (err : Option GoError)
  | panicked (msg : String)
  deriving DecidableEq, Repr

/-- Go `(*csConnection).newDocument`: how the call ends, and the network calls it made. -/
def csConnection.newDocument (w : World) (c : csConnection) (name filename : String)
    (parentID : Int) : Outcome × List NetCall :=
  let bodyWriter := NewWriter w
  match attachFile w bodyWriter filename with
  | (_, _, some _) => (.returned 0 none, [])
  | (bodyWriter, contentType, none) =>
    let args := [("type", "144"), ("name", name), ("parent_id", Itoa parentID)]
    match writeFields bodyWriter (rangeOrder w.rangeSeed args) with
    | .error err => (.returned 0 (some err), [])
    | .ok bodyWriter =>
      let bodyWriter := bodyWriter.Close
      match NewRequest w "POST" (c.url ++ apiBaseNodes) bodyWriter with
      | .error _ => (.returned 0 none, [])
      | .ok req =>
        let req := { req with Header := Header.Set req.Header "OTCSTicket" c.ticket }
        let req := { req with Header := Header.Set req.Header "Content-Type" contentType }
        match w.clientDo req with
        | (none, _) => (.panicked "invalid memory address or nil pointer dereference",
            [NetCall.clientDo req])
        | (some _, some err) => (.returned 0 (some (GoError.http err)), [NetCall.clientDo req])
        | (some resp, none) =>
          if resp.StatusCode ≠ 200 then
            (.returned 0 (some (GoError.errorString resp.Status)), [NetCall.clientDo req])
          else (.returned 0 none, [NetCall.clientDo req])

/-- The form `auth` posts: `vals.Set("username", ...)`, `vals.Set("password", ...)`. -/
def authVals (c : csConnection) : List (String × String) :=
  Values.Set (Values.Set [] "username" c.username) "password" c.password

/-- Go `(*csConnection).auth`: the error, the connection after the call, and the
network calls it made. -/
def csConnection.auth (w : World) (c : csConnection) :
    Option GoError × csConnection × List NetCall :=
  let vals := authVals c
  let call := [NetCall.postForm (c.url ++ apiBase ++ "auth") vals]
  match w.postForm (c.url ++ apiBase ++ "auth") vals with
  | .error err => (some (GoError.http err), c, call)
  | .ok response =>
    match w.jsonDecode response.Body with
    | .error err => (some (GoError.json err), c, call)
    | .ok authResponse =>
      match authResponse.lookup "ticket" with
      | none => (some (GoError.errorString "No ticket in response"), c, call)
      | some ticket => (none, { c with ticket := ticket }, call)

/-! ## The driver: `main` and the goroutines it starts -/

/-- One entry per `fmt.Print*` call of the program. -/
inductive Output
  | usage (msg : String) -- fmt.Println(msg)
  | auth (err : Option GoError) -- fmt.Printf("Auth: %v\n", conn.auth())
  | ticket (t : String) -- fmt.Printf("OTCSTicket: %s\n", conn.ticket)
  | added (name : String) (err : Option GoError) -- the two Printf calls of a goroutine
  deriving DecidableEq, Repr

/-- The text an output entry puts on standard output. -/
def Output.text : Output → String
  | .usage msg => msg ++ "\n"
  | .auth none => "Auth: <nil>\n"
  | .auth (some e) => "Auth: " ++ e.Error ++ "\n"
  | .ticket t => "OTCSTicket: " ++ t ++ "\n"
  | .added name none => "Added " ++ name ++ "\n"
  | .added name (some e) => "Added " ++ name ++ ", error = " ++ e.Error ++ "\n"

/-- The upload outcomes among the output entries: name and error. -/
def outcomes : List Output → List (String × Option GoError)
  | [] => []
  | .added name err :: rest => (name, err) :: outcomes rest
  | _ :: rest => outcomes rest

/-- Control points of the main goroutine. -/
inductive MainPc
  | validate -- the checks on flags.file and flags.url
  | auth -- newCSConnection, conn.auth() and the two Printf calls
  | makeGuard -- guard := make(chan struct{}, flags.concurrent)
  | loopHead -- the test i < flags.count
  | send -- after wg.Add(1), at guard <- struct{}{}
  | spawn -- the slot is taken, at the go statement
  | wait -- wg.Wait()
  | exited -- main has returned
  | crashed -- a goroutine panicked and the process is gone
  deriving DecidableEq, Repr

/-- Control points of an upload goroutine. -/
inductive TaskPc
  | start -- created, before the call of conn.newDocument
  | uploading -- inside conn.newDocument
  | release -- outcome printed, at <-guard
  | done -- slot released, at wg.Done()
  deriving DecidableEq, Repr

/-- A live upload goroutine: its argument `n` and its control point. -/
structure Task where
  n : Int
  pc : TaskPc
  deriving DecidableEq, Repr

/-- The state of a run of `main`. -/
structure State where
  pc : MainPc
  conn : csConnection
  i : Int
  guardCap : Nat
  guardLen : Nat
  wg : Int
  tasks : List Task
  stdout : List Output
  net : List NetCall
  deriving DecidableEq, Repr

/-- The name a goroutine derives: `fmt.Sprintf("%s%05d", flags.prefix, n)`. -/
def docName (flags : flagVar) (n : Int) : String := flags.pfx ++ sprintf05d n

/-- The state before `main` runs its first statement. -/
def initState : State :=
  { pc := .validate, conn := ⟨"", "", "", ""⟩, i := 0, guardCap := 0, guardLen := 0, wg := 0,
    tasks := [], stdout := [], net := [] }

/-- A panic ends the process: no goroutine and no channel content is left. -/
def crash (s : State) : State :=
  { s with pc := .crashed, tasks := [], guardLen := 0, wg := 0 }

/-- One step of the main goroutine; `none` when it is blocked or has ended. -/
def stepMain (w : World) (flags : flagVar) (s : State) : Option State :=
  match s.pc with
  | .validate =>
    if flags.file = "" then
      some { s with pc := .exited, stdout := s.stdout ++ [.usage "You must specify a file"] }
    else if flags.url = "" then
      some { s with pc := .exited, stdout := s.stdout ++ [.usage "You must specify a url"] }
    else some { s with pc := .auth }
  | .auth =>
    match (newCSConnection flags.url flags.username flags.password).auth w with
    | (err, conn, calls) =>
      some { s with pc := .makeGuard, conn := conn,
                    stdout := s.stdout ++ [.auth err, .ticket conn.ticket],
                    net := s.net ++ calls }
  | .makeGuard =>
    if flags.concurrent < 0 then some (crash s) -- panic: makechan: size out of range
    else some { s with pc := .loopHead, guardCap := flags.concurrent.toNat, guardLen := 0,
                       wg := 0, i := 0 }
  | .loopHead =>
    if s.i < flags.count then some { s with pc := .send, wg := s.wg + 1 }
    else some { s with pc := .wait }
  | .send =>
    if s.guardLen < s.guardCap then some { s with pc := .spawn, guardLen := s.guardLen + 1 }
    else none
  | .spawn =>
    some { s with pc := .loopHead, tasks := s.tasks ++ [{ n := s.i, pc := .start }],
                  i := s.i + 1 }
  | .wait => if s.wg = 0 then some { s with pc := .exited } else none
  | .exited => none
  | .crashed => none

/-- One step of the `k`-th live goroutine; `none` when it is blocked or absent. -/
def stepTask (w : World) (flags : flagVar) (s : State) (k : Nat) : Option State :=
  if s.pc = .exited ∨ s.pc = .crashed then none
  else
    match s.tasks[k]? with
    | none => none
    | some t =>
      match t.pc with
      | .start => some { s with tasks := s.tasks.set k { t with pc := .uploading } }
      | .uploading =>
        match s.conn.newDocument w (docName flags t.n) flags.file flags.parentID with
        | (.panicked _, calls) => some (crash { s with net := s.net ++ calls })
        | (.returned _ err, calls) =>
          some { s with tasks := s.tasks.set k { t with pc := .release },
                        stdout := s.stdout ++ [.added (docName flags t.n) err],
                        net := s.net ++ calls }
      | .release =>
        if 0 < s.guardLen then
          some { s with guardLen := s.guardLen - 1,
                        tasks := s.tasks.set k { t with pc := .done } }
        else none
      | .done =>
        if s.wg - 1 < 0 then some (crash s) -- panic: sync: negative WaitGroup counter
        else some { s with wg := s.wg - 1, tasks := s.tasks.eraseIdx k }

/-- On an unbuffered guard, the send of `main` completes together with the
receive of the `k`-th goroutine. -/
def stepHandoff (s : State) (k : Nat) : Option State :=
  if s.pc = .send ∧ s.guardCap = 0 then
    match s.tasks[k]? with
    | none => none
    | some t =>
      if t.pc = .release then
        some { s with pc := .spawn, tasks := s.tasks.set k { t with pc := .done } }
      else none
  else none

/-- What the scheduler picks next. -/
inductive Event
  | main
  | task (k : Nat)
  | handoff (k : Nat)
  deriving DecidableEq, Repr

/-- The launch/complete step function of the driver. -/
def step (w : World) (flags : flagVar) (s : State) : Event → Option State
  | .main => stepMain w flags s
  | .task k => stepTask w flags s k
  | .handoff k => stepHandoff s k

/-- Run a schedule from a state; `none` when an event of the schedule is not enabled. -/
def runFrom (w : World) (flags : flagVar) : State → List Event → Option State
  | s, [] => some s
  | s, e :: es =>
    match step w flags s e with
    | none => none
    | some s1 => runFrom w flags s1 es

/-- The states a run of the driver can be in. -/
inductive Reachable (w : World) (flags : flagVar) : State → Prop
  | init : Reachable w flags initState
  | step {s s1 : State} (e : Event) :
      Reachable w flags s → step w flags s e = some s1 → Reachable w flags s1

/-- Uploads launched and not yet completed: goroutines that still hold their slot. -/
def inFlight (s : State) : Nat := s.tasks.countP (fun t => t.pc ≠ .done)

/-- Uploads inside their network call. -/
def executing (s : State) : Nat := s.tasks.countP (fun t => t.pc = .uploading)

/-- The connection all uploads use: the one `auth` leaves behind. -/
def connAfterAuth (w : World) (flags : flagVar) : csConnection :=
  ((newCSConnection flags.url flags.username flags.password).auth w).2.1

/-- How the upload with index `n` ends. -/
def uploadOutcome (w : World) (flags : flagVar) (n : Int) : Outcome :=
  ((connAfterAuth w flags).newDocument w (docName flags n) flags.file flags.parentID).1

/-- The error an outcome carries (`none` is `nil`). -/
def Outcome.err : Outcome → Option GoError
  | .returned _ e => e
  | .panicked _ => none

/-- The outcome the goroutine with argument `n` reports. -/
def expectedOutcome (w : World) (flags : flagVar) (n : Int) : String × Option GoError :=
  (docName flags n, (uploadOutcome w flags n).err)

/-- The steps a run still has to take, at most. -/
def remaining (flags : flagVar) (s : State) : Nat :=
  (match s.pc with
    | .validate => 7 * flags.count.toNat + 5
    | .auth => 7 * flags.count.toNat + 4
    | .makeGuard => 7 * flags.count.toNat + 3
    | .loopHead => 7 * (flags.count - s.i).toNat + 2
    | .send => 7 * (flags.count - s.i - 1).toNat + 8
    | .spawn => 7 * (flags.count - s.i - 1).toNat + 7
    | .wait => 1
    | .exited => 0
    | .crashed => 0) +
  (s.tasks.map (fun t => match t.pc with
    | .start => 4
    | .uploading => 3
    | .release => 2
    | .done => 1)).sum

/-- The request the node-creation call sends once the file has been read. -/
def uploadRequest (w : World) (c : csConnection) (name filename : String) (parentID : Int)
    (content : List Nat) : Request :=
  { method := "POST"
    url := c.url ++ "/api/v1/nodes/"
    Header := [("Otcsticket", c.ticket),
      ("Content-Type", "multipart/form-data; boundary=" ++ w.boundary)]
    body :=
      { boundary := w.boundary
        parts := Part.file "file" filename content ::
          (rangeOrder w.rangeSeed
            [("type", "144"), ("name", name), ("parent_id", Itoa parentID)]).map
            (fun kv => Part.field kv.1 kv.2)
        closed := true } }

/-- How `newDocument` ends once the request has been answered. -/
def afterDo (r : Option Response × Option String) : Outcome :=
  match r with
  | (none, _) => .panicked "invalid memory address or nil pointer dereference"
  | (some _, some err) => .returned 0 (some (GoError.http err))
  | (some resp, none) =>
    if resp.StatusCode ≠ 200 then .returned 0 (some (GoError.errorString resp.Status))
    else .returned 0 none

/-- Facts about the guard, the wait group and the loop index that every
reachable state satisfies. -/
structure Inv (flags : flagVar) (s : State) : Prop where
  slots : inFlight s + (if s.pc = .spawn then 1 else 0) = s.guardLen
  room : s.guardLen ≤ s.guardCap
  capLe : s.guardCap ≤ flags.concurrent.toNat
  counter : s.wg = (s.tasks.length : Int) + (if s.pc = .send ∨ s.pc = .spawn then 1 else 0)
  early : s.pc = .validate ∨ s.pc = .auth ∨ s.pc = .makeGuard → s.tasks = []
  atExit : s.pc = .exited → s.tasks = []
  loopCap : s.pc = .loopHead ∨ s.pc = .send ∨ s.pc = .spawn ∨ s.pc = .wait →
    s.guardCap = flags.concurrent.toNat
  idxNonneg : 0 ≤ s.i
  idxLt : s.pc = .send ∨ s.pc = .spawn → s.i < flags.count
  idxLe : s.i ≤ flags.count ∨ s.i = 0
  args : ∀ t ∈ s.tasks, 0 ≤ t.n ∧ t.n < s.i

/-- Goroutines that have not yet printed their outcome. -/
def pending (ts : List Task) : List Task :=
  ts.filter (fun t => t.pc = .start ∨ t.pc = .uploading)

/-- The outcomes the goroutines with arguments `0 .. m-1` report, in launch order. -/
def expectedOutcomes (w : World) (flags : flagVar) (m : Nat) : List (String × Option GoError) :=
  (List.range m).map (fun k : Nat => expectedOutcome w flags (Int.ofNat k))

/-- Facts about the output of a run whose configuration passes validation,
whose guard has room and whose uploads do not panic. -/
structure RunInv (w : World) (flags : flagVar) (s : State) : Prop where
  alive : s.pc ≠ .crashed
  conn : s.pc ≠ .validate → s.pc ≠ .auth → s.conn = connAfterAuth w flags
  quiet : s.pc = .validate ∨ s.pc = .auth ∨ s.pc = .makeGuard →
    outcomes s.stdout = [] ∧ s.i = 0
  reported : (outcomes s.stdout ++ (pending s.tasks).map (fun t => expectedOutcome w flags t.n)).Perm
    (expectedOutcomes w flags s.i.toNat)
  finished : s.pc = .wait ∨ s.pc = .exited → flags.count ≤ s.i

/-- The number a string of decimal digits stands for. -/
def digitsValue (ds : List Char) : Nat :=
  ds.foldl (fun a c => 10 * a + (c.toNat - 48)) 0

/-- Every upload request in the trace carries the ticket `auth` left on the
connection, and so does the connection once `auth` has run. -/
structure TicketInv (w : World) (flags : flagVar) (s : State) : Prop where
  conn : s.pc = .makeGuard ∨ s.pc = .loopHead ∨ s.pc = .send ∨ s.pc = .spawn ∨ s.pc = .wait →
    s.conn = connAfterAuth w flags
  uploads : ∀ req, NetCall.clientDo req ∈ s.net →
    Header.Get req.Header "OTCSTicket" = (connAfterAuth w flags).ticket

/-- A state of a run that never launches an upload. -/
structure Blocked (s : State) : Prop where
  noTask : s.tasks = []
  noRoom : s.guardCap = 0
  first : s.i = 0
  noOutcome : outcomes s.stdout = []
  noUpload : ∀ req, NetCall.clientDo req ∉ s.net
  before : s.pc = .validate ∨ s.pc = .auth ∨ s.pc = .makeGuard ∨ s.pc = .loopHead ∨ s.pc = .send

/-- A world in which the file can be read, authentication yields the ticket
`tk`, and the server answers 200 to every upload but that of `doc00001`, which
gets a 500. -/
def demoWorld : World :=
  { boundary := "b0"
    osOpen := fun _ => none
    readAll := fun _ => .ok [104, 105]
    rangeSeed := 4
    newRequestErr := fun _ _ => none
    clientDo := fun r =>
      if r.body.parts.contains (Part.field "name" "doc00001") then
        (some ⟨500, "500 Internal Server Error", ""⟩, none)
      else (some ⟨200, "200 OK", ""⟩, none)
    postForm := fun _ _ => .ok ⟨200, "200 OK", "tk"⟩
    jsonDecode := fun b => .ok [("ticket", b)] }

/-- A world like `demoWorld` in which the source file does not exist. -/
def missingFileWorld : World :=
  { demoWorld with osOpen := fun _ => some "open f.txt: no such file or directory" }

/-- A world like `demoWorld` in which every upload fails in the transport:
`client.Do` returns a nil response and an error. -/
def brokenTransportWorld : World :=
  { demoWorld with clientDo := fun _ => (none, some "dial tcp: connection refused") }

/-- A world like `demoWorld` whose auth response is `{"ticket": ""}`. -/
def emptyTicketWorld : World :=
  { demoWorld with jsonDecode := fun _ => .ok [("ticket", "")] }

/-- Two documents, two slots. -/
def demoFlags : flagVar :=
  { parentID := 2000, file := "f.txt", pfx := "doc", count := 2, url := "http://cs",
    username := "Admin", password := "livelink", concurrent := 2 }

/-- One document behind a guard without capacity. -/
def zeroGuardFlags : flagVar := { demoFlags with count := 1, concurrent := 0 }

/-- The default flags: no URL given. -/
def defaultFlags : flagVar :=
  { parentID := 2000, file := "c:\\windows\\win.ini", pfx := "doc", count := 5, url := "",
    username := "Admin", password := "livelink", concurrent := 5 }

/-- The connection the demo runs use for their uploads. -/
def demoConn : csConnection :=
  { url := "http://cs", username := "Admin", password := "livelink", ticket := "tk" }

/-- A schedule that launches both uploads of `demoFlags` and lets both enter
their network call. -/
def bothUploading : List Event :=
  [.main, .main, .main, .main, .main, .main, .main, .main, .main, .task 0, .task 1]

/-- A schedule that runs `demoFlags` to the end. -/
def fullRun : List Event :=
  bothUploading ++ [.task 1, .task 0, .task 1, .task 0, .main, .task 0, .task 0, .main]

/-! ## Theorems -/

theorem attachFile_cases (w : World) (bw : Writer) (filename : String) :
    (∃ bw1 ct e, attachFile w bw filename = (bw1, ct, some e) ∧
        (w.osOpen filename ≠ none ∨ ∃ m, w.readAll filename = .error m)) ∨
    (∃ content, w.osOpen filename = none ∧ w.readAll filename = .ok content ∧
        attachFile w bw filename =
          ({ bw with parts := bw.parts ++ [Part.file "file" filename content] },
            "multipart/form-data; boundary=" ++ bw.boundary, none)) := by
  unfold attachFile Writer.CreateFormFile
  cases ho : w.osOpen filename with
  | some e => left; exact ⟨_, _, _, rfl, Or.inl (by simp)⟩
  | none =>
    cases hr : w.readAll filename with
    | error m => left; exact ⟨_, _, _, rfl, Or.inr ⟨m, rfl⟩⟩
    | ok content =>
      right
      refine ⟨content, rfl, rfl, ?_⟩
      simp [Writer.copyInto, Writer.FormDataContentType]

theorem writeFields_eq (bw : Writer) (l : List (String × String)) :
    writeFields bw l =
      .ok { bw with parts := bw.parts ++ l.map (fun kv => Part.field kv.1 kv.2) } := by
  induction l generalizing bw with
  | nil => simp [writeFields]
  | cons kv rest ih =>
    obtain ⟨k, v⟩ := kv
    simp [writeFields, Writer.WriteField, ih]

theorem rangeOrder_perm (seed : Nat) (l : List (String × String)) :
    (rangeOrder seed l).Perm l := by
  induction l generalizing seed with
  | nil => simp [rangeOrder]
  | cons kv rest ih =>
    simp only [rangeOrder]
    have hlen : (rangeOrder (seed / (rest.length + 1)) rest).length = rest.length :=
      (ih _).length_eq
    have hle : seed % (rest.length + 1) ≤ (rangeOrder (seed / (rest.length + 1)) rest).length := by
      rw [hlen]; exact Nat.lt_succ_iff.mp (Nat.mod_lt _ (Nat.succ_pos _))
    exact (List.perm_insertIdx kv _ hle).trans ((ih _).cons kv)

theorem headers_eq (t ct : String) :
    Header.Set (Header.Set [] "OTCSTicket" t) "Content-Type" ct =
      [("Otcsticket", t), ("Content-Type", ct)] := by
  have h1 : CanonicalMIMEHeaderKey "OTCSTicket" = "Otcsticket" := by decide
  have h2 : CanonicalMIMEHeaderKey "Content-Type" = "Content-Type" := by decide
  have h3 : ("Otcsticket" == "Content-Type") = false := by decide
  simp [Header.Set, mapSet, h1, h2, h3]

theorem newDocument_unreadable (w : World) (c : csConnection) (name filename : String)
    (parentID : Int)
    (h : w.osOpen filename ≠ none ∨ ∃ m, w.readAll filename = .error m) :
    c.newDocument w name filename parentID = (.returned 0 none, []) := by
  rcases attachFile_cases w (NewWriter w) filename with ⟨bw1, ct, e, he, _⟩ | ⟨content, ho, hr, _⟩
  · simp [csConnection.newDocument, he]
  · rcases h with h | ⟨m, hm⟩
    · exact absurd ho h
    · rw [hr] at hm; cases hm

theorem newDocument_badURL (w : World) (c : csConnection) (name filename : String)
    (parentID : Int) (content : List Nat) (e : String)
    (ho : w.osOpen filename = none) (hr : w.readAll filename = .ok content)
    (hu : w.newRequestErr "POST" (c.url ++ apiBaseNodes) = some e) :
    c.newDocument w name filename parentID = (.returned 0 none, []) := by
  rcases attachFile_cases w (NewWriter w) filename with ⟨bw1, ct, e1, he, hx⟩ | ⟨content1, _, _, he⟩
  · rcases hx with h | ⟨m, hm⟩
    · exact absurd ho h
    · rw [hr] at hm; cases hm
  · simp [csConnection.newDocument, he, writeFields_eq, NewRequest, hu]

theorem newDocument_readable (w : World) (c : csConnection) (name filename : String)
    (parentID : Int) (content : List Nat)
    (ho : w.osOpen filename = none) (hr : w.readAll filename = .ok content)
    (hu : w.newRequestErr "POST" (c.url ++ apiBaseNodes) = none) :
    c.newDocument w name filename parentID =
      (afterDo (w.clientDo (uploadRequest w c name filename parentID content)),
        [NetCall.clientDo (uploadRequest w c name filename parentID content)]) := by
  rcases attachFile_cases w (NewWriter w) filename with ⟨bw1, ct, e1, he, hx⟩ | ⟨content1, _, hr1, he⟩
  · rcases hx with h | ⟨m, hm⟩
    · exact absurd ho h
    · rw [hr] at hm; cases hm
  · rw [hr] at hr1
    cases hr1
    have hurl : c.url ++ apiBaseNodes = c.url ++ "/api/v1/nodes/" := by
      congr 1
    simp only [csConnection.newDocument, he, writeFields_eq, NewRequest, hu, headers_eq]
    simp only [NewWriter, Writer.Close, List.nil_append, List.singleton_append, hurl, uploadRequest]
    generalize w.clientDo _ = r
    rcases r with ⟨_ | resp, _ | err⟩ <;> simp [afterDo]
    split <;> simp_all

theorem getElem?_split {α : Type} (l : List α) (k : Nat) (t : α) (h : l[k]? = some t) :
    ∃ l1 l2, l = l1 ++ t :: l2 ∧ (∀ t1, l.set k t1 = l1 ++ t1 :: l2) ∧
      l.eraseIdx k = l1 ++ l2 := by
  induction l generalizing k with
  | nil => simp at h
  | cons a rest ih =>
    cases k with
    | zero =>
      simp at h
      subst h
      exact ⟨[], rest, rfl, fun _ => rfl, rfl⟩
    | succ k =>
      simp at h
      obtain ⟨l1, l2, h1, h2, h3⟩ := ih k h
      refine ⟨a :: l1, l2, by simp [h1], fun t1 => ?_, ?_⟩
      · simp [h2 t1]
      · simp [h3]

theorem stepTask_some {w : World} {flags : flagVar} {s s1 : State} {k : Nat}
    (h : stepTask w flags s k = some s1) :
    s.pc ≠ .exited ∧ s.pc ≠ .crashed ∧ ∃ l1 t l2, s.tasks = l1 ++ t :: l2 ∧
      ((t.pc = .start ∧ s1 = { s with tasks := l1 ++ { t with pc := .uploading } :: l2 }) ∨
       (t.pc = .uploading ∧
          ∃ m, (s.conn.newDocument w (docName flags t.n) flags.file flags.parentID).1
              = .panicked m ∧
            s1 = crash { s with net := s.net ++
              (s.conn.newDocument w (docName flags t.n) flags.file flags.parentID).2 }) ∨
       (t.pc = .uploading ∧
          ∃ id err, (s.conn.newDocument w (docName flags t.n) flags.file flags.parentID).1
              = .returned id err ∧
            s1 = { s with tasks := l1 ++ { t with pc := .release } :: l2,
                          stdout := s.stdout ++ [.added (docName flags t.n) err],
                          net := s.net ++
              (s.conn.newDocument w (docName flags t.n) flags.file flags.parentID).2 }) ∨
       (t.pc = .release ∧ 0 < s.guardLen ∧
          s1 = { s with guardLen := s.guardLen - 1,
                        tasks := l1 ++ { t with pc := .done } :: l2 }) ∨
       (t.pc = .done ∧ s.wg - 1 < 0 ∧ s1 = crash s) ∨
       (t.pc = .done ∧ ¬ s.wg - 1 < 0 ∧ s1 = { s with wg := s.wg - 1, tasks := l1 ++ l2 })) := by
  unfold stepTask at h
  split at h
  · cases h
  · rename_i hpc
    push_neg at hpc
    refine ⟨hpc.1, hpc.2, ?_⟩
    split at h
    · cases h
    · rename_i t ht
      obtain ⟨l1, l2, h1, h2, h3⟩ := getElem?_split _ _ _ ht
      refine ⟨l1, t, l2, h1, ?_⟩
      split at h
      · rename_i hp
        simp only [Option.some.injEq] at h
        left; exact ⟨hp, by rw [← h, h2]⟩
      · rename_i hp
        split at h
        · rename_i m calls hnd
          simp only [Option.some.injEq] at h
          right; left
          refine ⟨hp, m, by rw [hnd], ?_⟩
          rw [← h, hnd]
        · rename_i id err calls hnd
          simp only [Option.some.injEq] at h
          right; right; left
          refine ⟨hp, id, err, by rw [hnd], ?_⟩
          rw [← h, hnd, h2]
      · rename_i hp
        split at h
        · rename_i hg
          simp only [Option.some.injEq] at h
          right; right; right; left
          exact ⟨hp, hg, by rw [← h, h2]⟩
        · cases h
      · rename_i hp
        split at h
        · rename_i hw
          simp only [Option.some.injEq] at h
          right; right; right; right; left
          exact ⟨hp, hw, h.symm⟩
        · rename_i hw
          simp only [Option.some.injEq] at h
          right; right; right; right; right
          exact ⟨hp, hw, by rw [← h, h3]⟩

theorem stepHandoff_some {s s1 : State} {k : Nat} (h : stepHandoff s k = some s1) :
    s.pc = .send ∧ s.guardCap = 0 ∧ ∃ l1 t l2, s.tasks = l1 ++ t :: l2 ∧ t.pc = .release ∧
      s1 = { s with pc := .spawn, tasks := l1 ++ { t with pc := .done } :: l2 } := by
  unfold stepHandoff at h
  split at h
  · rename_i hc
    refine ⟨hc.1, hc.2, ?_⟩
    split at h
    · cases h
    · rename_i t ht
      obtain ⟨l1, l2, h1, h2, _⟩ := getElem?_split _ _ _ ht
      split at h
      · rename_i hp
        simp only [Option.some.injEq] at h
        exact ⟨l1, t, l2, h1, hp, by rw [← h, h2]⟩
      · cases h
  · cases h

theorem inv_init (flags : flagVar) : Inv flags initState := by
  constructor <;> simp [initState, inFlight]

theorem inv_crash (flags : flagVar) (s : State) (h : Inv flags s) : Inv flags (crash s) := by
  obtain ⟨h1, h2, h3, h4, h5, h6, h7, h8, h9, h10, h11⟩ := h
  constructor <;> simp [crash, inFlight] <;> assumption

theorem inv_main {w : World} {flags : flagVar} {s s1 : State} (hinv : Inv flags s)
    (h : stepMain w flags s = some s1) : Inv flags s1 := by
  unfold stepMain at h
  split at h
  · -- validate
    rename_i hpc
    obtain ⟨h1, h2, h3, h4, h5, h6, h7, h8, h9, h10, h11⟩ := hinv
    have ht : s.tasks = [] := h5 (Or.inl hpc)
    simp [hpc, inFlight, ht] at h1 h4
    split at h
    · cases h; constructor <;> simp [inFlight, ht] <;> assumption
    · split at h
      · cases h; constructor <;> simp [inFlight, ht] <;> assumption
      · cases h; constructor <;> simp [inFlight, ht] <;> assumption
  · -- auth
    rename_i hpc
    obtain ⟨h1, h2, h3, h4, h5, h6, h7, h8, h9, h10, h11⟩ := hinv
    have ht : s.tasks = [] := h5 (Or.inr (Or.inl hpc))
    simp [hpc, inFlight, ht] at h1 h4
    cases h; constructor <;> simp [inFlight, ht] <;> assumption
  · -- makeGuard
    rename_i hpc
    split at h
    · cases h; exact inv_crash flags s hinv
    · obtain ⟨h1, h2, h3, h4, h5, h6, h7, h8, h9, h10, h11⟩ := hinv
      have ht : s.tasks = [] := h5 (Or.inr (Or.inr hpc))
      cases h; constructor <;> simp [inFlight, ht]
  · -- loopHead
    rename_i hpc
    obtain ⟨h1, h2, h3, h4, h5, h6, h7, h8, h9, h10, h11⟩ := hinv
    simp [hpc, inFlight] at h1 h4 h7
    split at h
    · cases h; constructor <;> simp [inFlight] <;> assumption
    · cases h; constructor <;> simp [inFlight] <;> assumption
  · -- send
    rename_i hpc
    obtain ⟨h1, h2, h3, h4, h5, h6, h7, h8, h9, h10, h11⟩ := hinv
    simp [hpc, inFlight] at h1 h4 h7 h9
    split at h
    · cases h; constructor <;> simp [inFlight] <;> assumption
    · cases h
  · -- spawn
    rename_i hpc
    obtain ⟨h1, h2, h3, h4, h5, h6, h7, h8, h9, h10, h11⟩ := hinv
    simp [hpc, inFlight] at h1 h4 h7 h9
    cases h
    constructor <;> simp [inFlight, List.countP_append]
    · omega
    · omega
    · omega
    · omega
    · omega
    · omega
    · omega
    · intro t ht
      rcases ht with ht | ht
      · have := h11 t ht; omega
      · subst ht; simp; omega
  · -- wait
    rename_i hpc
    obtain ⟨h1, h2, h3, h4, h5, h6, h7, h8, h9, h10, h11⟩ := hinv
    simp [hpc, inFlight] at h1 h4 h7
    split at h
    · rename_i hw
      have ht : s.tasks = [] := by
        rw [hw] at h4
        exact List.length_eq_zero.mp (by omega)
      simp [ht] at h1
      cases h; constructor <;> simp [inFlight, ht] <;> assumption
    · cases h
  · cases h
  · cases h

theorem args_update {l1 l2 : List Task} {t t1 : Task} {i : Int}
    (h : ∀ x ∈ l1 ++ t :: l2, 0 ≤ x.n ∧ x.n < i) (hn : t1.n = t.n) :
    ∀ x ∈ l1 ++ t1 :: l2, 0 ≤ x.n ∧ x.n < i := by
  intro x hx
  simp only [List.mem_append, List.mem_cons] at hx h
  rcases hx with hx | hx | hx
  · exact h x (Or.inl hx)
  · subst hx
    rw [hn]
    exact h t (Or.inr (Or.inl rfl))
  · exact h x (Or.inr (Or.inr hx))

theorem args_erase {l1 l2 : List Task} {t : Task} {i : Int}
    (h : ∀ x ∈ l1 ++ t :: l2, 0 ≤ x.n ∧ x.n < i) :
    ∀ x ∈ l1 ++ l2, 0 ≤ x.n ∧ x.n < i := by
  intro x hx
  simp only [List.mem_append, List.mem_cons] at hx h
  rcases hx with hx | hx
  · exact h x (Or.inl hx)
  · exact h x (Or.inr (Or.inr hx))

theorem inv_task {w : World} {flags : flagVar} {s s1 : State} {k : Nat} (hinv : Inv flags s)
    (h : stepTask w flags s k = some s1) : Inv flags s1 := by
  obtain ⟨hne, hnc, l1, t, l2, hts, hcase⟩ := stepTask_some h
  clear h
  have hearly : ¬ (s.pc = .validate ∨ s.pc = .auth ∨ s.pc = .makeGuard) := by
    intro he
    have := hinv.early he
    rw [hts] at this
    simp at this
  rcases hcase with ⟨hp, rfl⟩ | ⟨hp, m, _, rfl⟩ | ⟨hp, id, err, _, rfl⟩ | ⟨hp, hg, rfl⟩ |
    ⟨hp, hw, rfl⟩ | ⟨hp, hw, rfl⟩
  · obtain ⟨h1, h2, h3, h4, h5, h6, h7, h8, h9, h10, h11⟩ := hinv
    rw [hts] at h11
    simp [inFlight, hts, List.countP_append, List.countP_cons, hp] at h1 h4
    refine { slots := ?_, room := h2, capLe := h3, counter := ?_,
             early := fun he => absurd he hearly, atExit := fun he => absurd he hne,
             loopCap := h7, idxNonneg := h8, idxLt := h9, idxLe := h10,
             args := args_update h11 rfl }
    · simp [inFlight, List.countP_append, List.countP_cons]; omega
    · simp; omega
  · exact inv_crash flags _ (by
      obtain ⟨h1, h2, h3, h4, h5, h6, h7, h8, h9, h10, h11⟩ := hinv
      constructor <;> assumption)
  · obtain ⟨h1, h2, h3, h4, h5, h6, h7, h8, h9, h10, h11⟩ := hinv
    rw [hts] at h11
    simp [inFlight, hts, List.countP_append, List.countP_cons, hp] at h1 h4
    refine { slots := ?_, room := h2, capLe := h3, counter := ?_,
             early := fun he => absurd he hearly, atExit := fun he => absurd he hne,
             loopCap := h7, idxNonneg := h8, idxLt := h9, idxLe := h10,
             args := args_update h11 rfl }
    · simp [inFlight, List.countP_append, List.countP_cons]; omega
    · simp; omega
  · obtain ⟨h1, h2, h3, h4, h5, h6, h7, h8, h9, h10, h11⟩ := hinv
    rw [hts] at h11
    simp [inFlight, hts, List.countP_append, List.countP_cons, hp] at h1 h4
    refine { slots := ?_, room := ?_, capLe := h3, counter := ?_,
             early := fun he => absurd he hearly, atExit := fun he => absurd he hne,
             loopCap := h7, idxNonneg := h8, idxLt := h9, idxLe := h10,
             args := args_update h11 rfl }
    · simp [inFlight, List.countP_append, List.countP_cons]; omega
    · simp; omega
    · simp; omega
  · exact inv_crash flags _ hinv
  · obtain ⟨h1, h2, h3, h4, h5, h6, h7, h8, h9, h10, h11⟩ := hinv
    rw [hts] at h11
    simp [inFlight, hts, List.countP_append, List.countP_cons, hp] at h1 h4
    refine { slots := ?_, room := h2, capLe := h3, counter := ?_,
             early := fun he => absurd he hearly, atExit := fun he => absurd he hne,
             loopCap := h7, idxNonneg := h8, idxLt := h9, idxLe := h10,
             args := args_erase h11 }
    · simp [inFlight, List.countP_append]; omega
    · simp; omega

theorem inv_handoff {flags : flagVar} {s s1 : State} {k : Nat} (hinv : Inv flags s)
    (h : stepHandoff s k = some s1) : Inv flags s1 := by
  obtain ⟨hpc, hcap, l1, t, l2, hts, hp, rfl⟩ := stepHandoff_some h
  obtain ⟨h1, h2, h3, h4, h5, h6, h7, h8, h9, h10, h11⟩ := hinv
  simp [inFlight, hts, List.countP_append, List.countP_cons, hp, hpc] at h1
  omega

theorem inv_step {w : World} {flags : flagVar} {s s1 : State} {e : Event} (hinv : Inv flags s)
    (h : step w flags s e = some s1) : Inv flags s1 := by
  cases e with
  | main => exact inv_main hinv h
  | task k => exact inv_task hinv h
  | handoff k => exact inv_handoff hinv h

theorem inv_reachable {w : World} {flags : flagVar} {s : State} (h : Reachable w flags s) :
    Inv flags s := by
  induction h with
  | init => exact inv_init flags
  | step e _ hs ih => exact inv_step ih hs

theorem outcomes_append (a b : List Output) : outcomes (a ++ b) = outcomes a ++ outcomes b := by
  induction a with
  | nil => rfl
  | cons x rest ih => cases x <;> simp [outcomes, ih]

theorem runInv_init (w : World) (flags : flagVar) : RunInv w flags initState := by
  constructor <;> simp [initState, outcomes, pending, expectedOutcomes]

theorem runInv_main {w : World} {flags : flagVar} {s s1 : State}
    (hfile : flags.file ≠ "") (hurl : flags.url ≠ "") (hconc : 1 ≤ flags.concurrent)
    (hinv : Inv flags s) (hrun : RunInv w flags s)
    (h : stepMain w flags s = some s1) : RunInv w flags s1 := by
  obtain ⟨r1, r2, r3, r4, r5⟩ := hrun
  unfold stepMain at h
  split at h
  · rename_i hpc
    simp only [hfile, hurl, if_false] at h
    cases h
    have ht := hinv.early (Or.inl hpc)
    refine { alive := by simp, conn := by simp, quiet := fun _ => r3 (Or.inl hpc),
             reported := r4, finished := by simp }
  · rename_i hpc
    cases h
    have ht := hinv.early (Or.inr (Or.inl hpc))
    have hq := r3 (Or.inr (Or.inl hpc))
    refine { alive := by simp, conn := fun _ _ => rfl, quiet := fun _ => ?_,
             reported := ?_, finished := by simp }
    · simp [outcomes_append, outcomes, hq.1, hq.2]
    · simp [outcomes_append, outcomes, hq.1, hq.2, ht, pending, expectedOutcomes]
  · rename_i hpc
    have ht := hinv.early (Or.inr (Or.inr hpc))
    have hq := r3 (Or.inr (Or.inr hpc))
    have hc : ¬ flags.concurrent < 0 := by omega
    simp only [hc, if_false] at h
    cases h
    refine { alive := by simp, conn := fun _ _ => r2 (by simp [hpc]) (by simp [hpc]),
             quiet := by simp, reported := ?_, finished := by simp }
    simp [hq.1, ht, pending, expectedOutcomes]
  · rename_i hpc
    split at h
    · cases h
      refine { alive := by simp, conn := fun _ _ => r2 (by simp [hpc]) (by simp [hpc]),
               quiet := by simp, reported := r4, finished := by simp }
    · rename_i hlt
      cases h
      refine { alive := by simp, conn := fun _ _ => r2 (by simp [hpc]) (by simp [hpc]),
               quiet := by simp, reported := r4, finished := fun _ => by simpa using hlt }
  · rename_i hpc
    split at h
    · cases h
      refine { alive := by simp, conn := fun _ _ => r2 (by simp [hpc]) (by simp [hpc]),
               quiet := by simp, reported := r4, finished := by simp }
    · cases h
  · rename_i hpc
    cases h
    have hi := hinv.idxNonneg
    refine { alive := by simp, conn := fun _ _ => r2 (by simp [hpc]) (by simp [hpc]),
             quiet := by simp, reported := ?_, finished := by simp }
    have hsucc : (s.i + 1).toNat = s.i.toNat + 1 := by omega
    have hcast : Int.ofNat s.i.toNat = s.i := by
      show ((s.i.toNat : Nat) : Int) = s.i
      omega
    simp only [expectedOutcomes, hsucc, List.range_succ, List.map_append, List.map_cons,
      List.map_nil, hcast, pending, List.filter_append]
    simp only [pending, expectedOutcomes] at r4
    simp only [List.filter_cons, List.filter_nil, true_or, decide_True, if_true,
      List.map_cons, List.map_nil, ← List.append_assoc]
    exact r4.append_right _
  · rename_i hpc
    split at h
    · cases h
      refine { alive := by simp, conn := fun _ _ => r2 (by simp [hpc]) (by simp [hpc]),
               quiet := by simp, reported := r4, finished := fun _ => r5 (Or.inl hpc) }
    · cases h
  · cases h
  · cases h

theorem pending_split_keep (l1 l2 : List Task) (t : Task)
    (hp : t.pc = .start ∨ t.pc = .uploading) :
    pending (l1 ++ t :: l2) = pending l1 ++ t :: pending l2 := by
  simp [pending, List.filter_append, List.filter_cons, hp]

theorem pending_split_drop (l1 l2 : List Task) (t : Task)
    (hp : t.pc = .release ∨ t.pc = .done) :
    pending (l1 ++ t :: l2) = pending l1 ++ pending l2 := by
  rcases hp with hp | hp <;> simp [pending, List.filter_append, List.filter_cons, hp]

theorem pending_append (l1 l2 : List Task) : pending (l1 ++ l2) = pending l1 ++ pending l2 := by
  simp [pending, List.filter_append]

theorem runInv_task {w : World} {flags : flagVar} {s s1 : State} {k : Nat}
    (hnp : ∀ n : Int, 0 ≤ n → n < flags.count → ∀ m, uploadOutcome w flags n ≠ .panicked m)
    (hinv : Inv flags s) (hrun : RunInv w flags s)
    (h : stepTask w flags s k = some s1) : RunInv w flags s1 := by
  obtain ⟨hne, hnc, l1, t, l2, hts, hcase⟩ := stepTask_some h
  clear h
  obtain ⟨r1, r2, r3, r4, r5⟩ := hrun
  have hearly : ¬ (s.pc = .validate ∨ s.pc = .auth ∨ s.pc = .makeGuard) := by
    intro he
    have := hinv.early he
    rw [hts] at this
    simp at this
  have hconn : s.conn = connAfterAuth w flags :=
    r2 (fun hv => hearly (Or.inl hv)) (fun ha => hearly (Or.inr (Or.inl ha)))
  have hn : 0 ≤ t.n ∧ t.n < flags.count := by
    have h1 := hinv.args t (by rw [hts]; simp)
    have h2 := hinv.idxLe
    omega
  rw [hts] at r4
  rcases hcase with ⟨hp, rfl⟩ | ⟨hp, m, hm, rfl⟩ | ⟨hp, id, err, herr, rfl⟩ | ⟨hp, hg, rfl⟩ |
    ⟨hp, hw, rfl⟩ | ⟨hp, hw, rfl⟩
  · refine { alive := r1, conn := r2, quiet := fun he => absurd he hearly, reported := ?_,
             finished := r5 }
    rw [pending_split_keep _ _ _ (Or.inl hp)] at r4
    show (outcomes s.stdout ++ (pending (l1 ++ _ :: l2)).map _).Perm _
    rw [pending_split_keep _ _ _ (Or.inr rfl)]
    simpa using r4
  · exfalso
    rw [hconn] at hm
    exact hnp t.n hn.1 hn.2 m hm
  · refine { alive := r1, conn := r2, quiet := fun he => absurd he hearly, reported := ?_,
             finished := r5 }
    rw [pending_split_keep _ _ _ (Or.inr hp)] at r4
    show (outcomes (s.stdout ++ _) ++ (pending (l1 ++ _ :: l2)).map _).Perm _
    rw [pending_split_drop _ _ _ (Or.inl rfl), outcomes_append]
    have hx : expectedOutcome w flags t.n = (docName flags t.n, err) := by
      simp only [expectedOutcome, uploadOutcome, ← hconn, herr, Outcome.err]
    simp only [outcomes, List.map_append, List.map_cons, hx] at r4 ⊢
    refine List.Perm.trans ?_ r4
    simp only [List.append_assoc, List.singleton_append]
    refine List.Perm.append_left _ ?_
    exact List.perm_middle.symm
  · refine { alive := r1, conn := r2, quiet := fun he => absurd he hearly, reported := ?_,
             finished := r5 }
    rw [pending_split_drop _ _ _ (Or.inl hp)] at r4
    show (outcomes s.stdout ++ (pending (l1 ++ _ :: l2)).map _).Perm _
    rw [pending_split_drop _ _ _ (Or.inr rfl)]
    exact r4
  · exfalso
    have := hinv.counter
    rw [hts] at this
    simp at this
    split at this <;> omega
  · refine { alive := r1, conn := r2, quiet := fun he => absurd he hearly, reported := ?_,
             finished := r5 }
    rw [pending_split_drop _ _ _ (Or.inr hp)] at r4
    show (outcomes s.stdout ++ (pending (l1 ++ l2)).map _).Perm _
    rw [pending_append]
    exact r4

theorem runInv_handoff {w : World} {flags : flagVar} {s s1 : State} {k : Nat}
    (hconc : 1 ≤ flags.concurrent) (hinv : Inv flags s)
    (h : stepHandoff s k = some s1) : RunInv w flags s1 := by
  obtain ⟨hpc, hcap, _⟩ := stepHandoff_some h
  have := hinv.loopCap (Or.inr (Or.inl hpc))
  omega

theorem runInv_reachable {w : World} {flags : flagVar} {s : State}
    (hfile : flags.file ≠ "") (hurl : flags.url ≠ "") (hconc : 1 ≤ flags.concurrent)
    (hnp : ∀ n : Int, 0 ≤ n → n < flags.count → ∀ m, uploadOutcome w flags n ≠ .panicked m)
    (h : Reachable w flags s) : RunInv w flags s := by
  induction h with
  | init => exact runInv_init w flags
  | step e hr hs ih =>
    have hinv := inv_reachable hr
    cases e with
    | main => exact runInv_main hfile hurl hconc hinv ih hs
    | task k => exact runInv_task hnp hinv ih hs
    | handoff k => exact runInv_handoff hconc hinv hs

theorem remaining_main {w : World} {flags : flagVar} {s s1 : State}
    (h : stepMain w flags s = some s1) : remaining flags s1 < remaining flags s := by
  unfold stepMain at h
  split at h
  · rename_i hpc
    split at h
    · cases h; simp [remaining, hpc]
    · split at h
      · cases h; simp [remaining, hpc]
      · cases h; simp [remaining, hpc]
  · rename_i hpc
    cases h; simp [remaining, hpc]
  · rename_i hpc
    split at h
    · cases h; simp [remaining, hpc, crash]
    · cases h; simp [remaining, hpc]
  · rename_i hpc
    split at h
    · cases h; simp [remaining, hpc]; omega
    · cases h; simp [remaining, hpc]
  · rename_i hpc
    split at h
    · cases h; simp [remaining, hpc]
    · cases h
  · rename_i hpc
    cases h; simp [remaining, hpc]; omega
  · rename_i hpc
    split at h
    · cases h; simp [remaining, hpc]
    · cases h
  · cases h
  · cases h

theorem remaining_task {w : World} {flags : flagVar} {s s1 : State} {k : Nat}
    (h : stepTask w flags s k = some s1) : remaining flags s1 < remaining flags s := by
  obtain ⟨hne, hnc, l1, t, l2, hts, hcase⟩ := stepTask_some h
  clear h
  rcases hcase with ⟨hp, rfl⟩ | ⟨hp, m, hm, rfl⟩ | ⟨hp, id, err, herr, rfl⟩ | ⟨hp, hg, rfl⟩ |
    ⟨hp, hw, rfl⟩ | ⟨hp, hw, rfl⟩ <;>
  simp [remaining, crash, hts, hp, List.sum_append]

theorem remaining_handoff {flags : flagVar} {s s1 : State} {k : Nat}
    (h : stepHandoff s k = some s1) : remaining flags s1 < remaining flags s := by
  obtain ⟨hpc, hcap, l1, t, l2, hts, hp, rfl⟩ := stepHandoff_some h
  simp [remaining, hts, hp, hpc, List.sum_append]
  omega

theorem remaining_step {w : World} {flags : flagVar} {s s1 : State} {e : Event}
    (h : step w flags s e = some s1) : remaining flags s1 < remaining flags s := by
  cases e with
  | main => exact remaining_main h
  | task k => exact remaining_task h
  | handoff k => exact remaining_handoff h

theorem progress {w : World} {flags : flagVar} {s : State}
    (hfile : flags.file ≠ "") (hurl : flags.url ≠ "") (hconc : 1 ≤ flags.concurrent)
    (hinv : Inv flags s) (halive : s.pc ≠ .crashed) (hne : s.pc ≠ .exited) :
    ∃ e s1, step w flags s e = some s1 := by
  cases hts : s.tasks with
  | nil =>
    refine ⟨.main, ?_⟩
    have h1 := hinv.slots
    have h4 := hinv.counter
    simp only [inFlight, hts, List.countP_nil, List.length_nil] at h1 h4
    cases hpc : s.pc with
    | validate => simp [step, stepMain, hpc, hfile, hurl]
    | auth => simp [step, stepMain, hpc]
    | makeGuard =>
      have hc : ¬ flags.concurrent < 0 := by omega
      simp [step, stepMain, hpc, hc]
    | loopHead =>
      by_cases hlt : s.i < flags.count <;> simp [step, stepMain, hpc, hlt]
    | send =>
      have hcap := hinv.loopCap (Or.inr (Or.inl hpc))
      have hlt : s.guardLen < s.guardCap := by
        simp [hpc] at h1
        omega
      simp [step, stepMain, hpc, hlt]
    | spawn => simp [step, stepMain, hpc]
    | wait =>
      have hw : s.wg = 0 := by simpa [hpc] using h4
      simp [step, stepMain, hpc, hw]
    | exited => exact absurd hpc hne
    | crashed => exact absurd hpc halive
  | cons t rest =>
    refine ⟨.task 0, ?_⟩
    have h1 := hinv.slots
    have h4 := hinv.counter
    simp only [inFlight, hts, List.countP_cons, List.length_cons] at h1 h4
    have hx : ¬ (s.pc = .exited ∨ s.pc = .crashed) := by tauto
    cases hp : t.pc with
    | start => simp [step, stepTask, hx, hts, hp]
    | uploading =>
      simp only [step, stepTask, hx, hts, hp, if_false, List.getElem?_cons_zero]
      split <;> simp
    | release =>
      have hg : 0 < s.guardLen := by
        simp [hp] at h1
        omega
      simp [step, stepTask, hx, hts, hp, hg]
    | done =>
      by_cases hw : s.wg - 1 < 0 <;> simp [step, stepTask, hx, hts, hp, hw]

theorem run_to_exit {w : World} {flags : flagVar}
    (hfile : flags.file ≠ "") (hurl : flags.url ≠ "") (hconc : 1 ≤ flags.concurrent)
    (hnp : ∀ n : Int, 0 ≤ n → n < flags.count → ∀ m, uploadOutcome w flags n ≠ .panicked m) :
    ∀ (n : Nat) (s : State), Reachable w flags s → remaining flags s ≤ n →
      ∃ es s1, runFrom w flags s es = some s1 ∧ s1.pc = .exited := by
  intro n
  induction n with
  | zero =>
    intro s hr hn
    by_cases hpc : s.pc = .exited
    · exact ⟨[], s, rfl, hpc⟩
    · obtain ⟨e, s1, hs⟩ := @progress w flags s hfile hurl hconc (inv_reachable hr)
        (runInv_reachable hfile hurl hconc hnp hr).alive hpc
      have := remaining_step hs
      omega
  | succ n ih =>
    intro s hr hn
    by_cases hpc : s.pc = .exited
    · exact ⟨[], s, rfl, hpc⟩
    · obtain ⟨e, s1, hs⟩ := @progress w flags s hfile hurl hconc (inv_reachable hr)
        (runInv_reachable hfile hurl hconc hnp hr).alive hpc
      have hlt := remaining_step hs
      obtain ⟨es, s2, hrun, hex⟩ := ih s1 (Reachable.step e hr hs) (by omega)
      exact ⟨e :: es, s2, by simp [runFrom, hs, hrun], hex⟩

theorem reachable_runFrom {w : World} {flags : flagVar} :
    ∀ (es : List Event) (s s1 : State), Reachable w flags s →
      runFrom w flags s es = some s1 → Reachable w flags s1 := by
  intro es
  induction es with
  | nil =>
    intro s s1 hr h
    simp only [runFrom, Option.some.injEq] at h
    exact h ▸ hr
  | cons e es ih =>
    intro s s1 hr h
    simp only [runFrom] at h
    split at h
    · cases h
    · rename_i s2 hs
      exact ih s2 s1 (Reachable.step e hr hs) h

theorem digitChar_value (k : Nat) (hk : k < 10) : (Nat.digitChar k).toNat - 48 = k := by
  interval_cases k <;> rfl

theorem digitsValue_snoc (l : List Char) (c : Char) :
    digitsValue (l ++ [c]) = 10 * digitsValue l + (c.toNat - 48) := by
  simp [digitsValue, List.foldl_append]

theorem toDigitsCore_value : ∀ (fuel n : Nat) (acc : List Char), n < fuel →
    ∃ l, Nat.toDigitsCore 10 fuel n acc = l ++ acc ∧ digitsValue l = n := by
  intro fuel
  induction fuel with
  | zero => intro n acc h; omega
  | succ fuel ih =>
    intro n acc h
    simp only [Nat.toDigitsCore]
    split
    · rename_i h0
      refine ⟨[Nat.digitChar (n % 10)], rfl, ?_⟩
      have : digitsValue [Nat.digitChar (n % 10)] = (Nat.digitChar (n % 10)).toNat - 48 := by
        simp [digitsValue]
      rw [this, digitChar_value _ (Nat.mod_lt _ (by norm_num))]
      omega
    · rename_i h0
      obtain ⟨l, hl, hv⟩ := ih (n / 10) (Nat.digitChar (n % 10) :: acc) (by omega)
      refine ⟨l ++ [Nat.digitChar (n % 10)], by simp [hl], ?_⟩
      rw [digitsValue_snoc, hv, digitChar_value _ (Nat.mod_lt _ (by norm_num))]
      omega

theorem decimal_value (n : Nat) : digitsValue (decimal n) = n := by
  obtain ⟨l, hl, hv⟩ := toDigitsCore_value (n + 1) n [] (by omega)
  simp only [decimal, Nat.toDigits, hl, List.append_nil, hv]

theorem zeroPad_value (width : Nat) (ds : List Char) :
    digitsValue (zeroPad width ds) = digitsValue ds := by
  have hz : ∀ k : Nat, List.foldl (fun a c => 10 * a + (c.toNat - 48)) 0
      (List.replicate k '0') = 0 := by
    intro k
    induction k with
    | zero => rfl
    | succ k ih => simp [List.replicate_succ, ih]
  simp [zeroPad, digitsValue, List.foldl_append, hz]

theorem sprintf05d_inj (n m : Int) (hn : 0 ≤ n) (hm : 0 ≤ m)
    (h : sprintf05d n = sprintf05d m) : n = m := by
  have hn1 : ¬ n < 0 := by omega
  have hm1 : ¬ m < 0 := by omega
  simp only [sprintf05d, hn1, hm1, if_false] at h
  have := congrArg (fun x : String => digitsValue x.data) h
  simp only at this
  rw [zeroPad_value, zeroPad_value, decimal_value, decimal_value] at this
  omega

theorem docName_inj (flags : flagVar) (n m : Int) (hn : 0 ≤ n) (hm : 0 ≤ m)
    (h : docName flags n = docName flags m) : n = m := by
  apply sprintf05d_inj n m hn hm
  have hd := congrArg String.data h
  simp only [docName, String.data_append] at hd
  exact String.ext (List.append_cancel_left hd)

theorem expectedOutcomes_names_nodup (w : World) (flags : flagVar) (m : Nat) :
    ((expectedOutcomes w flags m).map Prod.fst).Nodup := by
  simp only [expectedOutcomes, List.map_map]
  refine List.Nodup.map_on ?_ (List.nodup_range m)
  intro x _ y _ hxy
  simp only [Function.comp, expectedOutcome] at hxy
  have := docName_inj flags (Int.ofNat x) (Int.ofNat y) (Int.ofNat_nonneg x)
    (Int.ofNat_nonneg y) hxy
  exact Int.ofNat.inj this

theorem newDocument_cases (w : World) (c : csConnection) (name filename : String)
    (parentID : Int) :
    c.newDocument w name filename parentID = (.returned 0 none, []) ∨
    ∃ content, w.osOpen filename = none ∧ w.readAll filename = .ok content ∧
      w.newRequestErr "POST" (c.url ++ apiBaseNodes) = none ∧
      c.newDocument w name filename parentID =
        (afterDo (w.clientDo (uploadRequest w c name filename parentID content)),
          [NetCall.clientDo (uploadRequest w c name filename parentID content)]) := by
  cases ho : w.osOpen filename with
  | some e =>
    exact Or.inl (newDocument_unreadable w c name filename parentID (Or.inl (by simp [ho])))
  | none =>
    cases hr : w.readAll filename with
    | error m => exact Or.inl (newDocument_unreadable w c name filename parentID (Or.inr ⟨m, hr⟩))
    | ok content =>
      cases hu : w.newRequestErr "POST" (c.url ++ apiBaseNodes) with
      | some e => exact Or.inl (newDocument_badURL w c name filename parentID content e ho hr hu)
      | none =>
        exact Or.inr ⟨content, rfl, rfl, rfl,
          newDocument_readable w c name filename parentID content ho hr hu⟩

theorem uploadRequest_ticket (w : World) (c : csConnection) (name filename : String)
    (parentID : Int) (content : List Nat) :
    Header.Get (uploadRequest w c name filename parentID content).Header "OTCSTicket"
      = c.ticket := by
  have h1 : CanonicalMIMEHeaderKey "OTCSTicket" = "Otcsticket" := by decide
  simp [Header.Get, uploadRequest, h1, List.lookup]

theorem uploadRequest_contentType (w : World) (c : csConnection) (name filename : String)
    (parentID : Int) (content : List Nat) :
    Header.Get (uploadRequest w c name filename parentID content).Header "Content-Type"
      = (uploadRequest w c name filename parentID content).body.FormDataContentType := by
  have h2 : CanonicalMIMEHeaderKey "Content-Type" = "Content-Type" := by decide
  have h3 : ("Content-Type" == "Otcsticket") = false := by decide
  simp [Header.Get, uploadRequest, h2, h3, List.lookup, Writer.FormDataContentType]

theorem auth_calls (w : World) (c : csConnection) :
    (c.auth w).2.2 = [NetCall.postForm (c.url ++ apiBase ++ "auth") (authVals c)] := by
  unfold csConnection.auth
  simp only []
  split
  · rfl
  · split
    · rfl
    · split <;> rfl

/-- C3 (the code departs from the claim): when `os.Open` fails, `newDocument`
returns the nil error and makes no request, so the caller prints the upload as
a success. -/
theorem newDocument_swallows_open_error (w : World) (c : csConnection)
    (name filename : String) (parentID : Int) (e : String)
    (hopen : w.osOpen filename = some e) :
    (attachFile w (NewWriter w) filename).2.2 = some (GoError.os e) ∧
    c.newDocument w name filename parentID = (.returned 0 none, []) := by
  refine ⟨?_, newDocument_unreadable w c name filename parentID (Or.inl (by simp [hopen]))⟩
  simp [attachFile, Writer.CreateFormFile, hopen]

/-- With a missing file, the run of the driver reports both uploads as added
without an error. -/
theorem newDocument_swallows_open_error_witness :
    missingFileWorld.osOpen "f.txt" = some "open f.txt: no such file or directory" ∧
    ((attachFile missingFileWorld (NewWriter missingFileWorld) "f.txt").2.2 =
        some (GoError.os "open f.txt: no such file or directory") ∧
      demoConn.newDocument missingFileWorld "doc00000" "f.txt" 2000 = (.returned 0 none, [])) ∧
    (runFrom missingFileWorld demoFlags initState fullRun).map
        (fun s => (s.pc, s.stdout.map Output.text)) =
      some (.exited, ["Auth: <nil>\n", "OTCSTicket: tk\n", "Added doc00001\n",
        "Added doc00000\n"]) :=
  ⟨rfl, newDocument_swallows_open_error missingFileWorld demoConn "doc00000" "f.txt" 2000 _ rfl,
    by decide⟩

/-- C4: when the source file opens and is read, `http.NewRequest` accepts the
URL, and `client.Do` answers the request with a response and no error, then
`newDocument` sends exactly that one request and returns the nil error exactly
when the status code is 200; for any other status code it returns
`errors.New(resp.Status)`, an error whose text is the status text. -/
theorem newDocument_status_decides (w : World) (c : csConnection) (name filename : String)
    (parentID : Int) (content : List Nat) (resp : Response)
    (hopen : w.osOpen filename = none)
    (hread : w.readAll filename = .ok content)
    (hurl : w.newRequestErr "POST" (c.url ++ "/api/v1/nodes/") = none)
    (hdo : w.clientDo (uploadRequest w c name filename parentID content) = (some resp, none)) :
    (c.newDocument w name filename parentID).2 =
      [NetCall.clientDo (uploadRequest w c name filename parentID content)] ∧
    (c.newDocument w name filename parentID).1 =
      .returned 0 (if resp.StatusCode = 200 then none
        else some (GoError.errorString resp.Status)) ∧
    ((c.newDocument w name filename parentID).1.err = none ↔ resp.StatusCode = 200) ∧
    (resp.StatusCode ≠ 200 →
      ∃ e, (c.newDocument w name filename parentID).1.err = some e ∧ e.Error = resp.Status) := by
  rw [newDocument_readable w c name filename parentID content hopen hread hurl, hdo]
  by_cases hs : resp.StatusCode = 200
  · simp [afterDo, hs, Outcome.err]
  · simp [afterDo, hs, Outcome.err, GoError.Error]

/-- The demo server answers 500 to `doc00001` and 200 to `doc00000`: the first
upload returns the error "500 Internal Server Error", the second the nil error. -/
theorem newDocument_status_decides_witness :
    (demoConn.newDocument demoWorld "doc00001" "f.txt" 2000).1 =
      .returned 0 (some (GoError.errorString "500 Internal Server Error")) ∧
    (demoConn.newDocument demoWorld "doc00000" "f.txt" 2000).1 = .returned 0 none := by
  have h1 := newDocument_status_decides demoWorld demoConn "doc00001" "f.txt" 2000 [104, 105]
    ⟨500, "500 Internal Server Error", ""⟩ rfl rfl rfl (by decide)
  have h2 := newDocument_status_decides demoWorld demoConn "doc00000" "f.txt" 2000 [104, 105]
    ⟨200, "200 OK", ""⟩ rfl rfl rfl (by decide)
  exact ⟨h1.2.1, h2.2.1⟩

/-- C5 (the code departs from the claim): when `client.Do` returns a nil
response together with its error, `newDocument` dereferences the nil response
before it looks at the error: the goroutine panics and nothing is returned. -/
theorem newDocument_nil_response_panics (w : World) (c : csConnection)
    (name filename : String) (parentID : Int) (req : Request) (e : String)
    (hreq : (c.newDocument w name filename parentID).2 = [NetCall.clientDo req])
    (hdo : w.clientDo req = (none, some e)) :
    (c.newDocument w name filename parentID).1 =
      .panicked "invalid memory address or nil pointer dereference" := by
  rcases newDocument_cases w c name filename parentID with h | ⟨content, _, _, _, h⟩
  · rw [h] at hreq
    cases hreq
  · rw [h] at hreq ⊢
    simp only [List.cons.injEq, NetCall.clientDo.injEq, and_true] at hreq
    rw [hreq, hdo]
    rfl

/-- With a refused connection the first upload panics: the process is gone
before any outcome is printed and before the slot is released. -/
theorem newDocument_nil_response_panics_witness :
    (demoConn.newDocument brokenTransportWorld "doc00000" "f.txt" 2000).1 =
      .panicked "invalid memory address or nil pointer dereference" ∧
    (runFrom brokenTransportWorld demoFlags initState (bothUploading ++ [.task 0])).map
        (fun s => (s.pc, outcomes s.stdout)) = some (.crashed, []) :=
  ⟨newDocument_nil_response_panics brokenTransportWorld demoConn "doc00000" "f.txt" 2000
      (uploadRequest brokenTransportWorld demoConn "doc00000" "f.txt" 2000 [104, 105])
      "dial tcp: connection refused" (by decide) (by decide),
    by decide⟩

/-- C6 (as the code has it): once the auth response has decoded into a map,
`auth` succeeds exactly when the key "ticket" is present, whatever its value;
when the key is absent it returns `errors.New("No ticket in response")`, which
is neither a transport nor a decode error. -/
theorem auth_ticket_presence (w : World) (c : csConnection) (resp : Response)
    (m : List (String × String))
    (hpost : w.postForm (c.url ++ apiBase ++ "auth") (authVals c) = .ok resp)
    (hdec : w.jsonDecode resp.Body = .ok m) :
    ((c.auth w).1 = none ↔ (m.lookup "ticket").isSome) ∧
    (m.lookup "ticket" = none →
      (c.auth w).1 = some (GoError.errorString "No ticket in response")) ∧
    (∀ t, m.lookup "ticket" = some t → (c.auth w).1 = none ∧ (c.auth w).2.1.ticket = t) ∧
    (∀ t, GoError.errorString "No ticket in response" ≠ GoError.http t ∧
      GoError.errorString "No ticket in response" ≠ GoError.json t) := by
  have hauth : c.auth w =
      match m.lookup "ticket" with
      | none => (some (GoError.errorString "No ticket in response"), c,
          [NetCall.postForm (c.url ++ apiBase ++ "auth") (authVals c)])
      | some ticket => (none, { c with ticket := ticket },
          [NetCall.postForm (c.url ++ apiBase ++ "auth") (authVals c)]) := by
    simp only [csConnection.auth, hpost, hdec]
  rw [hauth]
  cases hl : m.lookup "ticket" with
  | none => simp
  | some t => simp

/-- A response without the key is rejected; one with the key is accepted. -/
theorem auth_ticket_presence_witness :
    (demoConn.auth demoWorld).1 = none ∧ (demoConn.auth demoWorld).2.1.ticket = "tk" := by
  have h := auth_ticket_presence demoWorld demoConn ⟨200, "200 OK", "tk"⟩ [("ticket", "tk")]
    rfl rfl
  exact h.2.2.1 "tk" (by decide)

/-- C6 (the claim as stated fails): a response `{"ticket": ""}` decodes into a
map that holds the key with an empty value, and `auth` returns the nil error. -/
theorem auth_accepts_empty_ticket :
    emptyTicketWorld.jsonDecode "tk" = .ok [("ticket", "")] ∧
    ((newCSConnection "http://cs" "Admin" "livelink").auth emptyTicketWorld).1 = none ∧
    ((newCSConnection "http://cs" "Admin" "livelink").auth emptyTicketWorld).2.1.ticket = "" :=
  ⟨rfl, by decide, by decide⟩

/-- C7: `auth` leaves url, username and password as they were; when it returns
the nil error the ticket is the value of the key "ticket" of the decoded
response, and when it returns an error the connection is unchanged; a fresh
connection has the empty ticket. -/
theorem auth_frame (w : World) (c : csConnection) :
    (c.auth w).2.1.url = c.url ∧ (c.auth w).2.1.username = c.username ∧
    (c.auth w).2.1.password = c.password ∧
    ((c.auth w).1 = none →
      ∃ resp m t, w.postForm (c.url ++ apiBase ++ "auth") (authVals c) = .ok resp ∧
        w.jsonDecode resp.Body = .ok m ∧ m.lookup "ticket" = some t ∧
        (c.auth w).2.1.ticket = t) ∧
    ((c.auth w).1 ≠ none → (c.auth w).2.1 = c) ∧
    (∀ url user password, (newCSConnection url user password).ticket = "") := by
  cases hpost : w.postForm (c.url ++ apiBase ++ "auth") (authVals c) with
  | error e => simp [csConnection.auth, hpost, newCSConnection]
  | ok resp =>
    cases hdec : w.jsonDecode resp.Body with
    | error e => simp [csConnection.auth, hpost, hdec, newCSConnection]
    | ok m =>
      cases hl : m.lookup "ticket" with
      | none => simp [csConnection.auth, hpost, hdec, hl, newCSConnection]
      | some t => simp [csConnection.auth, hpost, hdec, hl, newCSConnection]

/-- On the demo world `auth` stores the ticket `tk` and keeps the rest; when the
transport fails the connection stays as it was. -/
theorem auth_frame_witness :
    ((newCSConnection "http://cs" "Admin" "livelink").auth demoWorld).2.1.url = "http://cs" ∧
    ((newCSConnection "http://cs" "Admin" "livelink").auth demoWorld).2.1 = demoConn ∧
    ((newCSConnection "http://cs" "Admin" "livelink").auth
      { demoWorld with postForm := fun _ _ => .error "connection refused" }).2.1 =
      newCSConnection "http://cs" "Admin" "livelink" :=
  ⟨(auth_frame demoWorld (newCSConnection "http://cs" "Admin" "livelink")).1, by decide,
    (auth_frame { demoWorld with postForm := fun _ _ => .error "connection refused" }
      (newCSConnection "http://cs" "Admin" "livelink")).2.2.2.2.1 (by decide)⟩

theorem newDocument_calls_ticket (w : World) (c : csConnection) (name filename : String)
    (parentID : Int) (req : Request)
    (h : NetCall.clientDo req ∈ (c.newDocument w name filename parentID).2) :
    Header.Get req.Header "OTCSTicket" = c.ticket := by
  rcases newDocument_cases w c name filename parentID with h0 | ⟨content, _, _, _, h1⟩
  · rw [h0] at h
    simp at h
  · rw [h1] at h
    simp only [List.mem_singleton, NetCall.clientDo.injEq] at h
    rw [h]
    exact uploadRequest_ticket w c name filename parentID content

theorem stepMain_auth (w : World) (flags : flagVar) (s : State) (hpc : s.pc = .auth) :
    stepMain w flags s = some { s with
      pc := .makeGuard, conn := connAfterAuth w flags,
      stdout := s.stdout ++
        [.auth ((newCSConnection flags.url flags.username flags.password).auth w).1,
          .ticket (connAfterAuth w flags).ticket],
      net := s.net ++ [NetCall.postForm
        ((newCSConnection flags.url flags.username flags.password).url ++ apiBase ++ "auth")
        (authVals (newCSConnection flags.url flags.username flags.password))] } := by
  unfold stepMain
  rw [hpc]
  simp only [connAfterAuth, ← auth_calls w]

theorem ticketInv_init (w : World) (flags : flagVar) : TicketInv w flags initState := by
  constructor <;> simp [initState]

theorem ticketInv_main {w : World} {flags : flagVar} {s s1 : State}
    (hinv : TicketInv w flags s) (h : stepMain w flags s = some s1) : TicketInv w flags s1 := by
  obtain ⟨t1, t2⟩ := hinv
  by_cases hauth : s.pc = .auth
  · rw [stepMain_auth w flags s hauth] at h
    cases h
    refine { conn := fun _ => rfl, uploads := ?_ }
    intro req hreq
    simp only [List.mem_append, List.mem_singleton] at hreq
    rcases hreq with hreq | hreq
    · exact t2 req hreq
    · cases hreq
  unfold stepMain at h
  split at h
  · split at h
    · cases h
      exact { conn := by simp, uploads := t2 }
    · split at h
      · cases h
        exact { conn := by simp, uploads := t2 }
      · cases h
        exact { conn := by simp, uploads := t2 }
  · rename_i hpc
    exact absurd hpc hauth
  · rename_i hpc
    split at h
    · cases h
      exact { conn := by simp [crash], uploads := t2 }
    · cases h
      exact { conn := fun _ => t1 (Or.inl hpc), uploads := t2 }
  · rename_i hpc
    split at h
    · cases h
      exact { conn := fun _ => t1 (by simp [hpc]), uploads := t2 }
    · cases h
      exact { conn := fun _ => t1 (by simp [hpc]), uploads := t2 }
  · rename_i hpc
    split at h
    · cases h
      exact { conn := fun _ => t1 (by simp [hpc]), uploads := t2 }
    · cases h
  · rename_i hpc
    cases h
    exact { conn := fun _ => t1 (by simp [hpc]), uploads := t2 }
  · rename_i hpc
    split at h
    · cases h
      exact { conn := by simp, uploads := t2 }
    · cases h
  · cases h
  · cases h

theorem ticketInv_task {w : World} {flags : flagVar} {s s1 : State} {k : Nat}
    (hi : Inv flags s) (hinv : TicketInv w flags s) (h : stepTask w flags s k = some s1) :
    TicketInv w flags s1 := by
  obtain ⟨hne, hnc, l1, t, l2, hts, hcase⟩ := stepTask_some h
  clear h
  obtain ⟨t1, t2⟩ := hinv
  have hpc : s.pc = .makeGuard ∨ s.pc = .loopHead ∨ s.pc = .send ∨ s.pc = .spawn ∨
      s.pc = .wait := by
    have he : ¬ (s.pc = .validate ∨ s.pc = .auth ∨ s.pc = .makeGuard) := by
      intro he
      have := hi.early he
      rw [hts] at this
      simp at this
    cases hp : s.pc <;> simp_all
  have hconn := t1 hpc
  have hup : ∀ req, NetCall.clientDo req ∈ s.net ++
      (s.conn.newDocument w (docName flags t.n) flags.file flags.parentID).2 →
      Header.Get req.Header "OTCSTicket" = (connAfterAuth w flags).ticket := by
    intro req hreq
    rcases List.mem_append.mp hreq with hreq | hreq
    · exact t2 req hreq
    · rw [← hconn]
      exact newDocument_calls_ticket w s.conn _ _ _ req hreq
  rcases hcase with ⟨hp, rfl⟩ | ⟨hp, m, hm, rfl⟩ | ⟨hp, id, err, herr, rfl⟩ | ⟨hp, hg, rfl⟩ |
    ⟨hp, hw, rfl⟩ | ⟨hp, hw, rfl⟩
  · exact { conn := t1, uploads := t2 }
  · exact { conn := by simp [crash], uploads := hup }
  · exact { conn := t1, uploads := hup }
  · exact { conn := t1, uploads := t2 }
  · exact { conn := by simp [crash], uploads := t2 }
  · exact { conn := t1, uploads := t2 }

theorem ticketInv_handoff {w : World} {flags : flagVar} {s s1 : State} {k : Nat}
    (hinv : TicketInv w flags s) (h : stepHandoff s k = some s1) : TicketInv w flags s1 := by
  obtain ⟨hpc, hcap, l1, t, l2, hts, hp, rfl⟩ := stepHandoff_some h
  exact { conn := fun _ => hinv.conn (by simp [hpc]), uploads := hinv.uploads }

theorem ticketInv_reachable {w : World} {flags : flagVar} {s : State}
    (h : Reachable w flags s) : TicketInv w flags s := by
  induction h with
  | init => exact ticketInv_init w flags
  | step e hr hs ih =>
    cases e with
    | main => exact ticketInv_main ih hs
    | task k => exact ticketInv_task (inv_reachable hr) ih hs
    | handoff k => exact ticketInv_handoff ih hs

/-- C8: every request `newDocument` sends is a POST to `c.url ++ "/api/v1/nodes/"`
with the header OTCSTicket set to `c.ticket` and Content-Type set to the
content type of the multipart writer; its body is the file part named "file"
followed by the fields type = "144", name and parent_id = `Itoa parentID` in
the order of the map iteration; with a readable file and a URL that
`http.NewRequest` accepts exactly one such request is sent; and in every
reachable state of the driver every upload request carries the ticket the
connection holds after `auth`. -/
theorem upload_request_shape (w : World) (flags : flagVar) :
    (∀ (c : csConnection) (name filename : String) (parentID : Int) (call : NetCall),
      call ∈ (c.newDocument w name filename parentID).2 →
      ∃ req content fields,
        call = NetCall.clientDo req ∧ (c.newDocument w name filename parentID).2 = [call] ∧
        w.readAll filename = .ok content ∧
        req.method = "POST" ∧ req.url = c.url ++ "/api/v1/nodes/" ∧
        req.Header = [("Otcsticket", c.ticket), ("Content-Type", req.body.FormDataContentType)] ∧
        Header.Get req.Header "OTCSTicket" = c.ticket ∧
        Header.Get req.Header "Content-Type" = req.body.FormDataContentType ∧
        req.body.parts = Part.file "file" filename content :: fields ∧
        req.body.closed = true ∧
        fields.Perm [Part.field "type" "144", Part.field "name" name,
          Part.field "parent_id" (Itoa parentID)]) ∧
    (∀ (c : csConnection) (name filename : String) (parentID : Int) (content : List Nat),
      w.osOpen filename = none → w.readAll filename = .ok content →
      w.newRequestErr "POST" (c.url ++ "/api/v1/nodes/") = none →
      ∃ req, (c.newDocument w name filename parentID).2 = [NetCall.clientDo req]) ∧
    (∀ s, Reachable w flags s → ∀ req, NetCall.clientDo req ∈ s.net →
      Header.Get req.Header "OTCSTicket" = (connAfterAuth w flags).ticket) := by
  refine ⟨?_, ?_, fun s hs => (ticketInv_reachable hs).uploads⟩
  · intro c name filename parentID call hcall
    rcases newDocument_cases w c name filename parentID with h0 | ⟨content, _, hr, _, h1⟩
    · rw [h0] at hcall
      simp at hcall
    · rw [h1] at hcall ⊢
      simp only [List.mem_singleton] at hcall
      refine ⟨uploadRequest w c name filename parentID content, content,
        (rangeOrder w.rangeSeed
          [("type", "144"), ("name", name), ("parent_id", Itoa parentID)]).map
          (fun kv : String × String => Part.field kv.1 kv.2), hcall, by rw [hcall], hr, rfl, rfl,
        rfl,
        uploadRequest_ticket w c name filename parentID content,
        uploadRequest_contentType w c name filename parentID content, rfl, rfl, ?_⟩
      exact (rangeOrder_perm w.rangeSeed _).map _
  · intro c name filename parentID content ho hr hu
    exact ⟨_, congrArg Prod.snd (newDocument_readable w c name filename parentID content ho hr hu)⟩

/-- The two uploads of the demo run send the same ticket `tk`, and the request
for `doc00000` is the one the claim describes. -/
theorem upload_request_shape_witness :
    (demoConn.newDocument demoWorld "doc00000" "f.txt" 2000).2 =
      [NetCall.clientDo
        { method := "POST", url := "http://cs/api/v1/nodes/",
          Header := [("Otcsticket", "tk"), ("Content-Type", "multipart/form-data; boundary=b0")],
          body := { boundary := "b0",
                    parts := [Part.file "file" "f.txt" [104, 105], Part.field "parent_id" "2000",
                      Part.field "type" "144", Part.field "name" "doc00000"],
                    closed := true } }] ∧
    ∃ s, runFrom demoWorld demoFlags initState fullRun = some s ∧
      (s.net.filterMap (fun c => match c with
        | .clientDo req => some (Header.Get req.Header "OTCSTicket")
        | _ => none)) = ["tk", "tk"] ∧
      ∀ req, NetCall.clientDo req ∈ s.net → Header.Get req.Header "OTCSTicket" = "tk" := by
  refine ⟨by decide, (runFrom demoWorld demoFlags initState fullRun).getD initState,
    by decide, by decide, ?_⟩
  exact (upload_request_shape demoWorld demoFlags).2.2 _
    (reachable_runFrom fullRun initState _ Reachable.init (by decide))

/-- C2: in every reachable state the uploads launched and not yet completed
number at most `concurrency` (for a negative `concurrency` the creation of the
guard panics and nothing is ever launched), and the uploads inside their
network call are among them. -/
theorem in_flight_bounded (w : World) (flags : flagVar) (s : State)
    (h : Reachable w flags s) :
    (inFlight s : Int) ≤ max flags.concurrent 0 ∧ executing s ≤ inFlight s ∧
    inFlight s ≤ s.guardLen ∧ s.guardLen ≤ s.guardCap := by
  have hinv := inv_reachable h
  have h1 := hinv.slots
  have h2 := hinv.room
  have h3 := hinv.capLe
  refine ⟨?_, ?_, ?_, h2⟩
  · have : inFlight s ≤ flags.concurrent.toNat := by
      split at h1 <;> omega
    omega
  · unfold executing inFlight
    apply List.countP_mono_left
    intro t _ ht
    simp only [decide_eq_true_eq] at ht
    simp [ht]
  · split at h1 <;> omega

/-- With two slots, the state in which both uploads of the demo run are inside
their network call is reachable and respects the bound. -/
theorem in_flight_bounded_witness :
    ∃ s, runFrom demoWorld demoFlags initState bothUploading = some s ∧
      executing s = 2 ∧ inFlight s = 2 ∧ (inFlight s : Int) ≤ max demoFlags.concurrent 0 := by
  refine ⟨(runFrom demoWorld demoFlags initState bothUploading).getD initState,
    by decide, by decide, by decide, ?_⟩
  exact (in_flight_bounded demoWorld demoFlags _
    (reachable_runFrom bothUploading initState _ Reachable.init (by decide))).1

theorem blocked_main {w : World} {flags : flagVar} {s s1 : State}
    (hconc : flags.concurrent = 0) (hcount : 1 ≤ flags.count)
    (hfile : flags.file ≠ "") (hurl : flags.url ≠ "")
    (hb : Blocked s) (h : stepMain w flags s = some s1) : Blocked s1 := by
  obtain ⟨b1, b2, b3, b4, b5, b6⟩ := hb
  by_cases hauth : s.pc = .auth
  · rw [stepMain_auth w flags s hauth] at h
    cases h
    refine { noTask := b1, noRoom := b2, first := b3, noOutcome := ?_, noUpload := ?_,
             before := by simp }
    · simp [outcomes_append, outcomes, b4]
    · intro req hreq
      simp only [List.mem_append, List.mem_singleton] at hreq
      rcases hreq with hreq | hreq
      · exact b5 req hreq
      · cases hreq
  unfold stepMain at h
  split at h
  · simp only [hfile, hurl, if_false] at h
    cases h
    exact { noTask := b1, noRoom := b2, first := b3, noOutcome := b4, noUpload := b5,
            before := by simp }
  · rename_i hpc
    exact absurd hpc hauth
  · have hc : ¬ flags.concurrent < 0 := by omega
    simp only [hc, if_false] at h
    cases h
    exact { noTask := b1, noRoom := by simp [hconc], first := rfl, noOutcome := b4,
            noUpload := b5, before := by simp }
  · have hlt : s.i < flags.count := by omega
    simp only [hlt, if_true] at h
    cases h
    exact { noTask := b1, noRoom := b2, first := b3, noOutcome := b4, noUpload := b5,
            before := by simp }
  · have hn : ¬ s.guardLen < s.guardCap := by omega
    simp only [hn, if_false] at h
    cases h
  · rename_i hpc
    simp [hpc] at b6
  · rename_i hpc
    simp [hpc] at b6
  · cases h
  · cases h

theorem blocked_no_task_step {w : World} {flags : flagVar} {s : State} (hb : Blocked s)
    (k : Nat) : stepTask w flags s k = none ∧ stepHandoff s k = none := by
  constructor
  · cases h : stepTask w flags s k with
    | none => rfl
    | some s1 =>
      obtain ⟨_, _, l1, t, l2, hts, _⟩ := stepTask_some h
      rw [hb.noTask] at hts
      simp at hts
  · cases h : stepHandoff s k with
    | none => rfl
    | some s1 =>
      obtain ⟨_, _, l1, t, l2, hts, _⟩ := stepHandoff_some h
      rw [hb.noTask] at hts
      simp at hts

theorem blocked_reachable {w : World} {flags : flagVar} {s : State}
    (hconc : flags.concurrent = 0) (hcount : 1 ≤ flags.count)
    (hfile : flags.file ≠ "") (hurl : flags.url ≠ "")
    (h : Reachable w flags s) : Blocked s := by
  induction h with
  | init =>
    exact { noTask := rfl, noRoom := rfl, first := rfl, noOutcome := rfl,
            noUpload := by simp [initState], before := Or.inl rfl }
  | step e hr hs ih =>
    cases e with
    | main => exact blocked_main hconc hcount hfile hurl ih hs
    | task k =>
      rw [show step w flags _ (.task k) = stepTask w flags _ k from rfl,
        (blocked_no_task_step ih k).1] at hs
      cases hs
    | handoff k =>
      rw [show step w flags _ (.handoff k) = stepHandoff _ k from rfl,
        (@blocked_no_task_step w flags _ ih k).2] at hs
      cases hs

theorem blocked_send_stuck {w : World} {flags : flagVar} {s : State} (hb : Blocked s)
    (hpc : s.pc = .send) (e : Event) : step w flags s e = none := by
  cases e with
  | main =>
    have hn : ¬ s.guardLen < s.guardCap := by
      have := hb.noRoom
      omega
    simp [step, stepMain, hpc, hn]
  | task k => exact (blocked_no_task_step hb k).1
  | handoff k => exact (@blocked_no_task_step w flags s hb k).2

theorem reach_send {w : World} {flags : flagVar}
    (hcount : 1 ≤ flags.count) (hfile : flags.file ≠ "") (hurl : flags.url ≠ "")
    (hconc : 0 ≤ flags.concurrent) :
    ∃ s, Reachable w flags s ∧ s.pc = .send := by
  have hc : ¬ flags.concurrent < 0 := by omega
  have hlt : (0 : Int) < flags.count := by omega
  have hrun : ∃ s, runFrom w flags initState [.main, .main, .main, .main] = some s ∧
      s.pc = .send := by
    simp [runFrom, step, stepMain, initState, hfile, hurl, hc, hlt]
  obtain ⟨s, hs, hpc⟩ := hrun
  exact ⟨s, reachable_runFrom _ initState s Reachable.init hs, hpc⟩

/-- C9: when the file path or the URL is empty, every reachable state has an
empty network trace; the only step from the initial state prints the usage
message and ends `main`, and no step follows. -/
theorem usage_without_network (w : World) (flags : flagVar) (s : State)
    (hcfg : flags.file = "" ∨ flags.url = "") (h : Reachable w flags s) :
    s.net = [] ∧
    (s = initState ∨
      s = { initState with
        pc := .exited,
        stdout := [.usage (if flags.file = "" then "You must specify a file"
          else "You must specify a url")] }) ∧
    (∃ s1, step w flags initState .main = some s1 ∧ s1.pc = .exited ∧ s1.net = [] ∧
      s1.stdout.map Output.text =
        [if flags.file = "" then "You must specify a file\n" else "You must specify a url\n"] ∧
      ∀ e, step w flags s1 e = none) := by
  have hstep : stepMain w flags initState = some { initState with
      pc := .exited,
      stdout := [.usage (if flags.file = "" then "You must specify a file"
        else "You must specify a url")] } := by
    by_cases hf : flags.file = ""
    · simp [stepMain, initState, hf]
    · have hu : flags.url = "" := by tauto
      simp [stepMain, initState, hf, hu]
  have hdone : ∀ (x : State), x.pc = .exited → ∀ e, step w flags x e = none := by
    intro x hx e
    cases e with
    | main => simp [step, stepMain, hx]
    | task k => simp [step, stepTask, hx]
    | handoff k => simp [step, stepHandoff, hx]
  have hall : s = initState ∨ s = { initState with
      pc := .exited,
      stdout := [.usage (if flags.file = "" then "You must specify a file"
        else "You must specify a url")] } := by
    induction h with
    | init => exact Or.inl rfl
    | step e hr hs ih =>
      rcases ih with ih | ih
      · subst ih
        cases e with
        | main =>
          rw [show step w flags initState .main = stepMain w flags initState from rfl,
            hstep] at hs
          cases hs
          exact Or.inr rfl
        | task k => simp [step, stepTask, initState] at hs
        | handoff k => simp [step, stepHandoff, initState] at hs
      · subst ih
        rw [hdone _ rfl e] at hs
        cases hs
  refine ⟨?_, hall, _, hstep, rfl, rfl, ?_, hdone _ rfl⟩
  · rcases hall with h1 | h1 <;> rw [h1] <;> rfl
  · by_cases hf : flags.file = "" <;> simp [hf, Output.text]

/-- Without a URL the run ends after the usage message and has made no call. -/
theorem usage_without_network_witness :
    (defaultFlags.file = "" ∨ defaultFlags.url = "") ∧
    ∃ s, runFrom demoWorld defaultFlags initState [.main] = some s ∧ s.pc = .exited ∧
      s.net = [] ∧ s.stdout.map Output.text = ["You must specify a url\n"] := by
  refine ⟨Or.inr rfl, (runFrom demoWorld defaultFlags initState [.main]).getD initState,
    by decide, by decide, ?_, by decide⟩
  exact (usage_without_network demoWorld defaultFlags _ (Or.inr rfl)
    (reachable_runFrom [.main] initState _ Reachable.init (by decide))).1

/-- C10: with `concurrency = 0`, at least one document and a configuration
that passes validation, no reachable state holds a goroutine, an upload
request or a reported outcome, `main` never gets past the send on the guard
(it reaches it, and there no step at all is enabled), and it never exits; with
`concurrency >= 1`, whenever `main` stands at the send and fewer than
`concurrency` uploads are in flight, the send is enabled. -/
theorem zero_capacity_guard_blocks (w : World) (flags : flagVar) :
    (flags.concurrent = 0 → 1 ≤ flags.count → flags.file ≠ "" → flags.url ≠ "" →
      (∀ s, Reachable w flags s →
        s.tasks = [] ∧ outcomes s.stdout = [] ∧ (∀ req, NetCall.clientDo req ∉ s.net) ∧
        s.pc ≠ .spawn ∧ s.pc ≠ .wait ∧ s.pc ≠ .exited ∧
        (s.pc = .send → ∀ e, step w flags s e = none)) ∧
      ∃ s, Reachable w flags s ∧ s.pc = .send) ∧
    (1 ≤ flags.concurrent → ∀ s, Reachable w flags s → s.pc = .send →
      (inFlight s : Int) < flags.concurrent →
      ∃ s1, step w flags s .main = some s1 ∧ s1.pc = .spawn ∧
        s1.guardLen = s.guardLen + 1) := by
  constructor
  · intro hconc hcount hfile hurl
    refine ⟨fun s hs => ?_, reach_send hcount hfile hurl (by omega)⟩
    have hb := blocked_reachable hconc hcount hfile hurl hs
    have hpc := hb.before
    refine ⟨hb.noTask, hb.noOutcome, hb.noUpload, ?_, ?_, ?_,
      fun hsend => blocked_send_stuck hb hsend⟩
    · intro h; simp [h] at hpc
    · intro h; simp [h] at hpc
    · intro h; simp [h] at hpc
  · intro hconc s hs hpc hlt
    have hinv := inv_reachable hs
    have h1 := hinv.slots
    have h7 := hinv.loopCap (Or.inr (Or.inl hpc))
    simp only [hpc] at h1
    have hroom : s.guardLen < s.guardCap := by
      simp at h1
      omega
    refine ⟨{ s with pc := .spawn, guardLen := s.guardLen + 1 }, ?_, rfl, rfl⟩
    simp only [step, stepMain, hpc, hroom, if_true]

/-- With no capacity the demo run stops for good at the first send; with two
slots the first send goes through. -/
theorem zero_capacity_guard_blocks_witness :
    (∃ s, runFrom demoWorld zeroGuardFlags initState [.main, .main, .main, .main] = some s ∧
      s.pc = .send ∧ ∀ e, step demoWorld zeroGuardFlags s e = none) ∧
    (∃ s s1, runFrom demoWorld demoFlags initState [.main, .main, .main, .main] = some s ∧
      step demoWorld demoFlags s .main = some s1 ∧ s1.pc = .spawn) := by
  constructor
  · refine ⟨(runFrom demoWorld zeroGuardFlags initState
      [.main, .main, .main, .main]).getD initState, by decide, by decide, ?_⟩
    exact (((zero_capacity_guard_blocks demoWorld zeroGuardFlags).1 rfl (by decide)
      (by decide) (by decide)).1 _
      (reachable_runFrom [.main, .main, .main, .main] initState _ Reachable.init
        (by decide))).2.2.2.2.2.2 (by decide)
  · obtain ⟨s1, h1, h2, _⟩ := (zero_capacity_guard_blocks demoWorld demoFlags).2 (by decide)
      ((runFrom demoWorld demoFlags initState [.main, .main, .main, .main]).getD initState)
      (reachable_runFrom [.main, .main, .main, .main] initState _ Reachable.init (by decide))
      (by decide) (by decide)
    exact ⟨_, s1, by decide, h1, h2⟩

/-- C1 (as the code has it): for a configuration that passes validation, with
`concurrency >= 1` and no upload that panics, whatever `auth` returned: no
reachable state is stuck before the exit, every step brings the end nearer, the
exit can be reached from every reachable state, and at the exit the reported
outcomes are, up to their order, one for each index `0 .. count-1`, the one for
index `i` carrying the name prefix ++ `%05d` of `i`, so `count` of them with
pairwise different names. -/
theorem driver_reports_each_upload (w : World) (flags : flagVar)
    (hfile : flags.file ≠ "") (hurl : flags.url ≠ "") (hconc : 1 ≤ flags.concurrent)
    (hnp : ∀ n : Int, 0 ≤ n → n < flags.count → ∀ m, uploadOutcome w flags n ≠ .panicked m) :
    (∀ s, Reachable w flags s → s.pc ≠ .exited → ∃ e s1, step w flags s e = some s1) ∧
    (∀ s e s1, step w flags s e = some s1 → remaining flags s1 < remaining flags s) ∧
    (∀ s, Reachable w flags s → ∃ es s1, runFrom w flags s es = some s1 ∧ s1.pc = .exited) ∧
    (∀ s, Reachable w flags s → s.pc = .exited →
      (outcomes s.stdout).Perm ((List.range flags.count.toNat).map (fun k : Nat =>
        (flags.pfx ++ sprintf05d (Int.ofNat k), (uploadOutcome w flags (Int.ofNat k)).err))) ∧
      (outcomes s.stdout).length = flags.count.toNat ∧
      ((outcomes s.stdout).map Prod.fst).Nodup) := by
  refine ⟨fun s hs hne => ?_, fun s e s1 h => remaining_step h, fun s hs => ?_,
    fun s hs hex => ?_⟩
  · exact progress hfile hurl hconc (inv_reachable hs)
      (runInv_reachable hfile hurl hconc hnp hs).alive hne
  · exact run_to_exit hfile hurl hconc hnp (remaining flags s) s hs (Nat.le_refl _)
  · have hinv := inv_reachable hs
    have hrun := runInv_reachable hfile hurl hconc hnp hs
    have hperm := hrun.reported
    have hfin := hrun.finished (Or.inr hex)
    have hle := hinv.idxLe
    have hidx : s.i.toNat = flags.count.toNat := by omega
    rw [hinv.atExit hex, hidx] at hperm
    simp only [pending, List.filter_nil, List.map_nil, List.append_nil] at hperm
    refine ⟨hperm, ?_, ?_⟩
    · rw [hperm.length_eq]
      simp [expectedOutcomes]
    · exact ((hperm.map Prod.fst).nodup_iff).mpr
        (expectedOutcomes_names_nodup w flags flags.count.toNat)

/-- The demo run (two documents, two slots, a 500 for `doc00001`) ends with one
outcome for each of the two names; prefix "doc" and index 3 give "doc00003". -/
theorem driver_reports_each_upload_witness :
    docName demoFlags 3 = "doc00003" ∧
    ∃ s, runFrom demoWorld demoFlags initState fullRun = some s ∧ s.pc = .exited ∧
      (outcomes s.stdout).Perm
        [("doc00000", none), ("doc00001", some (GoError.errorString "500 Internal Server Error"))] ∧
      (outcomes s.stdout).length = 2 := by
  have hnp : ∀ n : Int, 0 ≤ n → n < demoFlags.count →
      ∀ m, uploadOutcome demoWorld demoFlags n ≠ .panicked m := by
    intro n h0 h2 m
    have h2 : n < 2 := h2
    interval_cases n
    · have : uploadOutcome demoWorld demoFlags 0 = .returned 0 none := by decide
      rw [this]; simp
    · have : uploadOutcome demoWorld demoFlags 1 =
          .returned 0 (some (GoError.errorString "500 Internal Server Error")) := by decide
      rw [this]; simp
  have h := (driver_reports_each_upload demoWorld demoFlags (by decide) (by decide)
    (by decide) hnp).2.2.2
    ((runFrom demoWorld demoFlags initState fullRun).getD initState)
    (reachable_runFrom fullRun initState _ Reachable.init (by decide)) (by decide)
  refine ⟨by decide, _, by decide, by decide, ?_, h.2.1⟩
  have hexp : ((List.range demoFlags.count.toNat).map (fun k : Nat =>
      (demoFlags.pfx ++ sprintf05d (Int.ofNat k),
        (uploadOutcome demoWorld demoFlags (Int.ofNat k)).err))) =
      [("doc00000", none),
        ("doc00001", some (GoError.errorString "500 Internal Server Error"))] := by decide
  rw [← hexp]
  exact h.1

/-- C1 (the claim as stated fails): the configuration with one document and
`concurrency = 0` passes validation, and no reachable state of its run has a
reported outcome or has left `main`. -/
theorem zero_guard_reports_nothing :
    zeroGuardFlags.file ≠ "" ∧ zeroGuardFlags.url ≠ "" ∧ zeroGuardFlags.count = 1 ∧
    ¬ ∃ s, Reachable demoWorld zeroGuardFlags s ∧ (outcomes s.stdout ≠ [] ∨ s.pc = .exited) := by
  refine ⟨by decide, by decide, rfl, ?_⟩
  rintro ⟨s, hs, hbad⟩
  have hb := @blocked_reachable demoWorld zeroGuardFlags s rfl (by decide)
    (by decide) (by decide) hs
  rcases hbad with h | h
  · exact h hb.noOutcome
  · have := hb.before
    simp [h] at this

end CSLoader
